import Mathlib

/-!
# Reward endpoint of the workout-token application

A shallow embedding of `src/api/send-transaction.js`: the exercise catalog
`WORKOUT_SETTINGS`, the reward loop of the endpoint handler, the message
generator `generateTransactionMessage` and the handler itself, followed by the
properties of the specification that concern them.

Conventions of the embedding.

* A JavaScript number is `JsVal.num q` with `q : ℚ`, `JsVal.nan` is `NaN`, and
  `JsVal.undefined` is the value of a property that is absent.
* The reward loop is given twice. `rewardLoop` takes every product and sum
  exactly; it serves the statements that do not depend on the digits of the
  totals (which entries are counted, whether a total is `NaN`, which calls the
  handler makes). `rewardLoop64` is the same loop with IEEE-754 binary64
  arithmetic, every number of the source text and of the request body being
  the double nearest to it and every product and sum being rounded to nearest,
  ties to even; the statements about the value of `totalTokenAmount` are made
  about it.
* The request body follows the interface
  `{recipientAddress: string, workouts: [{type: string, reps: number}], lang}`:
  `type` is a string, `reps` is a number or absent.
* Reading `WORKOUT_SETTINGS[key]` is an ordinary property read of an object
  literal, so a key that is not one of the five catalog rows is still looked up
  on `Object.prototype`.
* Everything outside the file (the text service, the ledger client, the
  transaction library) is a field of `Env`; the handler returns its response
  together with the list of network calls it made, in order.
-/

namespace SendTransaction

/-! ## The fragment of JavaScript values used by the reward loop -/

/-- A value that can be the operand of the arithmetic in the reward loop. -/
inductive JsVal where
  | undefined
  | nan
  | num (q : ℚ)
  deriving DecidableEq

namespace JsVal

/-- `ToNumber`: `undefined` becomes `NaN`, a number is itself. -/
def toNumber : JsVal → JsVal
  | undefined => nan
  | nan => nan
  | num q => num q

/-- The product `a * b`, taken exactly (no rounding): `NaN` as soon as one
operand is not a number. -/
def mul (a b : JsVal) : JsVal :=
  match toNumber a, toNumber b with
  | num x, num y => num (x * y)
  | _, _ => nan

/-- The sum `a + b` of two numeric operands, taken exactly (no rounding). -/
def add (a b : JsVal) : JsVal :=
  match toNumber a, toNumber b with
  | num x, num y => num (x + y)
  | _, _ => nan

/-- `Math.floor`. -/
def floor (a : JsVal) : JsVal :=
  match toNumber a with
  | num x => num ((⌊x⌋ : ℤ) : ℚ)
  | _ => nan

/-- `ToBoolean`: `undefined`, `NaN` and `0` are falsy, every other number truthy. -/
def truthy : JsVal → Bool
  | undefined => false
  | nan => false
  | num q => decide (q ≠ 0)

/-- The comparison `a <= b`; it is `false` when an operand is `NaN` or
`undefined`. -/
def le (a b : JsVal) : Bool :=
  match toNumber a, toNumber b with
  | num x, num y => decide (x ≤ y)
  | _, _ => false

end JsVal

/-! ## The exercise catalog -/

/-- The shape of what `WORKOUT_SETTINGS[key]` evaluates to when it is truthy:
the four properties the handler and the message generator read from it.  A
property that the object does not have reads as `undefined` (`none` for the two
names). -/
structure Settings where
  name : Option String
  name_en : Option String
  tokenMultiplier : JsVal
  caloriesPerRep : JsVal
  deriving DecidableEq

/-- The object literal `WORKOUT_SETTINGS`: its five own properties. -/
def WORKOUT_SETTINGS : List (String × Settings) :=
  [ ("crunches",
      { name := some "腹筋", name_en := some "Crunches",
        tokenMultiplier := .num 1.0, caloriesPerRep := .num 0.4 }),
    ("pushups",
      { name := some "腕立て伏せ", name_en := some "Push-ups",
        tokenMultiplier := .num 1.2, caloriesPerRep := .num 0.6 }),
    ("squats",
      { name := some "スクワット", name_en := some "Squats",
        tokenMultiplier := .num 1.5, caloriesPerRep := .num 0.8 }),
    ("back_extensions",
      { name := some "背筋", name_en := some "Back Extensions",
        tokenMultiplier := .num 1.2, caloriesPerRep := .num 0.5 }),
    ("general_workout",
      { name := some "筋トレ全般", name_en := some "General Workout",
        tokenMultiplier := .num 1.0, caloriesPerRep := .num 0.5 }) ]

/-- The properties every object literal inherits from `Object.prototype`, each
with the value of its own `name` property.  All but `__proto__` are functions,
whose `name` is the function name; `__proto__` reads as `Object.prototype`
itself, which has no `name`.  None of them has `name_en`, `tokenMultiplier` or
`caloriesPerRep`. -/
def objectPrototype : List (String × Option String) :=
  [ ("constructor", some "Object"),
    ("hasOwnProperty", some "hasOwnProperty"),
    ("isPrototypeOf", some "isPrototypeOf"),
    ("propertyIsEnumerable", some "propertyIsEnumerable"),
    ("toLocaleString", some "toLocaleString"),
    ("toString", some "toString"),
    ("valueOf", some "valueOf"),
    ("__defineGetter__", some "__defineGetter__"),
    ("__defineSetter__", some "__defineSetter__"),
    ("__lookupGetter__", some "__lookupGetter__"),
    ("__lookupSetter__", some "__lookupSetter__"),
    ("__proto__", none) ]

/-- The property read `WORKOUT_SETTINGS[key]`: the own property when there is
one, otherwise the inherited one, otherwise `undefined` (`none`). -/
def getSettings (key : String) : Option Settings :=
  match WORKOUT_SETTINGS.lookup key with
  | some s => some s
  | none =>
    match objectPrototype.lookup key with
    | some fname =>
      some { name := fname, name_en := none,
             tokenMultiplier := .undefined, caloriesPerRep := .undefined }
    | none => none

/-! ## The reward loop (handler, lines 80 to 93), in exact arithmetic -/

/-- One element of the request's `workouts` array. -/
structure Workout where
  type : String
  reps : JsVal
  deriving DecidableEq

/-- One element of `workoutDetailsForPrompt`. -/
structure WorkoutDetail where
  type : String
  name : Option String
  reps : JsVal
  deriving DecidableEq

/-- The three variables the loop updates. -/
structure Reward where
  totalTokenAmount : JsVal
  totalCalories : JsVal
  workoutDetailsForPrompt : List WorkoutDetail
  deriving DecidableEq

/-- The guard `!settings || !workout.reps || workout.reps <= 0` for a truthy
`settings`: whether the entry is skipped because of its `reps`. -/
def repsRejected (reps : JsVal) : Bool :=
  !reps.truthy || reps.le (.num 0)

/-- The body of the `for (const workout of workouts)` loop. -/
def rewardStep (acc : Reward) (workout : Workout) : Reward :=
  match getSettings workout.type with
  | none => acc
  | some settings =>
    if repsRejected workout.reps then acc
    else
      { totalTokenAmount :=
          acc.totalTokenAmount.add (workout.reps.mul settings.tokenMultiplier).floor
        totalCalories :=
          acc.totalCalories.add (workout.reps.mul settings.caloriesPerRep)
        workoutDetailsForPrompt :=
          acc.workoutDetailsForPrompt ++
            [{ type := workout.type, name := settings.name, reps := workout.reps }] }

/-- The state before the first iteration. -/
def rewardInit : Reward :=
  { totalTokenAmount := .num 0, totalCalories := .num 0, workoutDetailsForPrompt := [] }

/-- The whole loop over the `workouts` array. -/
def rewardLoop (workouts : List Workout) : Reward :=
  workouts.foldl rewardStep rewardInit

/-! ## The reward loop in double precision -/

/-- A JavaScript Number as the machine holds it: `NaN`, an infinity with its
sign, or a finite double given by the rational it denotes. The two zeros are
not told apart. -/
inductive Double where
  | nan
  | inf (negative : Bool)
  | fin (q : ℚ)
  deriving DecidableEq

/-- The integer nearest to `t`, the even one when `t` lies halfway. -/
def roundHalfEven (t : ℚ) : ℤ :=
  if t - ⌊t⌋ < 1 / 2 then ⌊t⌋
  else if 1 / 2 < t - ⌊t⌋ then ⌊t⌋ + 1
  else if ⌊t⌋ % 2 = 0 then ⌊t⌋ else ⌊t⌋ + 1

/-- The binary exponent of a non-zero `x` in binary64: the `e` with
`2 ^ e ≤ |x| < 2 ^ (e + 1)`, and `-1022` for the subnormal numbers. -/
def exponent (x : ℚ) : ℤ :=
  max (Int.log 2 |x|) (-1022)

/-- Rounding of an exact value to binary64, to nearest with ties to even: the
nearest multiple of `2 ^ (exponent - 52)`, and an infinity once that multiple
reaches `2 ^ 1024`. -/
def round64 (x : ℚ) : Double :=
  if x = 0 then .fin 0
  else
    let quantum : ℚ := 2 ^ (exponent x - 52)
    let y : ℚ := roundHalfEven (x / quantum) * quantum
    if 2 ^ 1024 ≤ |y| then .inf (decide (x < 0)) else .fin y

/-- The double denoted by a value of the request or by a literal of the source:
`undefined` converts to `NaN`, a number to the double nearest to it. -/
def toDouble : JsVal → Double
  | .undefined => .nan
  | .nan => .nan
  | .num q => round64 q

/-- The product `a * b` of two doubles. -/
def mul64 : Double → Double → Double
  | .fin x, .fin y => round64 (x * y)
  | .fin x, .inf t => if x = 0 then .nan else .inf (xor (decide (x < 0)) t)
  | .inf s, .fin y => if y = 0 then .nan else .inf (xor s (decide (y < 0)))
  | .inf s, .inf t => .inf (xor s t)
  | _, _ => .nan

/-- The sum `a + b` of two doubles. -/
def add64 : Double → Double → Double
  | .fin x, .fin y => round64 (x + y)
  | .fin _, .inf t => .inf t
  | .inf s, .fin _ => .inf s
  | .inf s, .inf t => if s = t then .inf s else .nan
  | _, _ => .nan

/-- `Math.floor` of a double. -/
def floor64 : Double → Double
  | .fin x => .fin ((⌊x⌋ : ℤ) : ℚ)
  | .inf s => .inf s
  | .nan => .nan

/-- `ToBoolean` of a double: `NaN` and zero are falsy. -/
def truthy64 : Double → Bool
  | .fin x => decide (x ≠ 0)
  | .inf _ => true
  | .nan => false

/-- The comparison `a <= b` of two doubles; `false` when one is `NaN`. -/
def le64 : Double → Double → Bool
  | .fin x, .fin y => decide (x ≤ y)
  | .fin _, .inf t => !t
  | .inf s, .fin _ => s
  | .inf s, .inf t => s || !t
  | _, _ => false

/-- One element of `workoutDetailsForPrompt`, the repetitions being a double. -/
structure WorkoutDetail64 where
  type : String
  name : Option String
  reps : Double
  deriving DecidableEq

/-- The three variables of the loop, the numbers being doubles. -/
structure Reward64 where
  totalTokenAmount : Double
  totalCalories : Double
  workoutDetailsForPrompt : List WorkoutDetail64
  deriving DecidableEq

/-- The body of the `for (const workout of workouts)` loop, in double
precision. -/
def rewardStep64 (acc : Reward64) (workout : Workout) : Reward64 :=
  match getSettings workout.type with
  | none => acc
  | some settings =>
    if !truthy64 (toDouble workout.reps) || le64 (toDouble workout.reps) (.fin 0) then acc
    else
      { totalTokenAmount :=
          add64 acc.totalTokenAmount
            (floor64 (mul64 (toDouble workout.reps) (toDouble settings.tokenMultiplier)))
        totalCalories :=
          add64 acc.totalCalories
            (mul64 (toDouble workout.reps) (toDouble settings.caloriesPerRep))
        workoutDetailsForPrompt :=
          acc.workoutDetailsForPrompt ++
            [{ type := workout.type, name := settings.name,
               reps := toDouble workout.reps }] }

/-- The state before the first iteration. -/
def rewardInit64 : Reward64 :=
  { totalTokenAmount := .fin 0, totalCalories := .fin 0, workoutDetailsForPrompt := [] }

/-- The whole loop over the `workouts` array, in double precision. -/
def rewardLoop64 (workouts : List Workout) : Reward64 :=
  workouts.foldl rewardStep64 rewardInit64

/-! ## What lies outside the file -/

/-- The ways one call of the text service can end: `generateContent` throws,
awaiting `result.response` throws, `response.text()` throws, or
`response.text()` returns a string. -/
inductive TextOutcome where
  | generateContentThrows (error : String)
  | responseRejects (error : String)
  | textThrows (error : String)
  | text (s : String)
  deriving DecidableEq

/-- The result of `PlainMessage.create(s)`: a message whose `payload` is `s`. -/
structure PlainMessage where
  payload : String
  deriving DecidableEq

/-- The result of `Account.createFromPrivateKey(privateKey, networkType)`. -/
structure Account where
  privateKey : String
  networkType : Nat
  deriving DecidableEq

/-- The arguments of `TransferTransaction.create(...).setMaxFee(...)`: the
recipient string given to `Address.createFromRawAddress`, the mosaic id, the
argument of `UInt64.fromUint`, the message, the network type and the fee.  The
deadline `Deadline.create(SYMBOL_EPOCH_ADJUSTMENT, 2)` is kept as its two
arguments. -/
structure TransferTransaction where
  epochAdjustment : Nat
  deadlineHours : Nat
  recipient : String
  mosaicId : String
  amount : JsVal
  message : PlainMessage
  networkType : Nat
  maxFee : Nat
  deriving DecidableEq

/-- The result of `senderAccount.sign(transferTransaction, generationHash)`. -/
structure SignedTransaction where
  signer : Account
  transaction : TransferTransaction
  generationHash : String
  deriving DecidableEq

/-- The process environment and the external collaborators of one request.  A
network call yields a value or fails with an error message; a library call
throws an error message (`some e`) or does not (`none`). -/
structure Env where
  PRIVATE_KEY : Option String
  /-- `Number::toString` for the numbers that are not integers of absolute value
  below `2^53` (their digits are those of the double, not of the rational). -/
  numberToString : ℚ → String
  /-- The text service, as a function of the prompt. -/
  generateContent : String → TextOutcome
  getNetworkType : Except String Nat
  getGenerationHash : Except String String
  createFromPrivateKey : String → Nat → Option String
  createFromRawAddress : String → Option String
  /-- Covers `Deadline.create`, `MosaicId`, `UInt64.fromUint`, `Mosaic`,
  `TransferTransaction.create` and `setMaxFee`. -/
  createTransfer : TransferTransaction → Option String
  sign : Account → TransferTransaction → String → Option String
  announce : SignedTransaction → Option String

/-- The network calls the handler can make. -/
inductive Call where
  | generateContent (prompt : String)
  | getNetworkType
  | getGenerationHash
  | announce (signedTx : SignedTransaction)
  deriving DecidableEq

/-! ## generateTransactionMessage -/

/-- String conversion of a number inside a template literal: an integer of
absolute value below `2^53` is printed with all its digits. -/
def numberToString (env : Env) (q : ℚ) : String :=
  if q.den = 1 ∧ q.num.natAbs < 2 ^ 53 then toString q.num else env.numberToString q

/-- String conversion of `w.reps` inside a template literal. -/
def repsToString (env : Env) : JsVal → String
  | .undefined => "undefined"
  | .nan => "NaN"
  | .num q => numberToString env q

/-- String conversion of `workoutName` inside a template literal. -/
def nameToString : Option String → String
  | some s => s
  | none => "undefined"

/-- The default parameter `lang = 'ja'` followed by the test `lang === 'en'`. -/
def isEn (lang : Option String) : Bool :=
  lang.getD "ja" == "en"

/-- The value of `workoutName` for one element of the list. -/
def workoutName (lang : Option String) (w : WorkoutDetail) : Option String :=
  if isEn lang then
    match getSettings w.type with
    | some settings =>
      match settings.name_en with
      | some nameEn => if nameEn ≠ "" then some nameEn else w.name
      | none => w.name
    | none => w.name
  else w.name

/-- The phrase built for one element of the list. -/
def workoutPhrase (env : Env) (lang : Option String) (w : WorkoutDetail) : String :=
  if isEn lang then
    nameToString (workoutName lang w) ++ " for " ++ repsToString env w.reps ++ " reps"
  else
    nameToString (workoutName lang w) ++ "を" ++ repsToString env w.reps ++ "回"

/-- The constant `workoutSummary`. -/
def workoutSummary (env : Env) (workouts : List WorkoutDetail) (lang : Option String) : String :=
  (if isEn lang then ", " else "、").intercalate (workouts.map (workoutPhrase env lang))

/-- The variable `promptTemplate` after the `if (lang === 'en')`. -/
def promptTemplate (lang : Option String) (summary : String) : String :=
  if isEn lang then
    "You are a super passionate fitness trainer. Like a drill sergeant, but with love, your style is to push users to their limits. The user has just completed a great training session. The content is \"" ++ summary ++ "\". Praise this overall effort and generate a super hot, powerful, and motivating one-liner (within 100 characters) that ignites the user\x27s soul. Your response MUST be ONLY in English."
  else
    "あなたは、超熱血なフィットネストレーナーです。まるで鬼軍曹のように、しかし愛情を込めて、ユーザーを限界まで追い込むのがあなたのスタイルです。ユーザーが今、素晴らしいトレーニングセッションを終えました。内容は「" ++ summary ++ "」です。この総合的な努力を称え、ユーザーの魂に火をつけるような、最高に熱く、パワフルで、モチベーションが爆上がりする一言（100文字以内）を生成してください。"

/-- The variable `fallbackMessage` after the `if (lang === 'en')`. -/
def fallbackMessage (lang : Option String) : String :=
  if isEn lang then "Great workout! Nice fight!"
  else "素晴らしいトレーニングでした！ナイスファイト！"

/-- The prompt handed to `geminiModel.generateContent`. -/
def promptFor (env : Env) (workouts : List WorkoutDetail) (lang : Option String) : String :=
  promptTemplate lang (workoutSummary env workouts lang)

/-- The function `generateTransactionMessage`: the `try` returns the text of
the response, the `catch` returns the fallback. -/
def generateTransactionMessage (env : Env) (workouts : List WorkoutDetail)
    (lang : Option String) : String :=
  match env.generateContent (promptFor env workouts lang) with
  | .text s => s
  | .generateContentThrows _ => fallbackMessage lang
  | .responseRejects _ => fallbackMessage lang
  | .textThrows _ => fallbackMessage lang

/-! ## The handler -/

/-- The parts of the request the handler reads.  `recipientAddress` and `lang`
are `none` when absent; `workouts` is `none` when it is not an array. -/
structure Request where
  method : String
  recipientAddress : Option String
  workouts : Option (List Workout)
  lang : Option String

/-- The JSON body of a response. -/
structure ResponseBody where
  message : String
  error : Option String
  transactionMessage : Option String
  estimatedCalories : Option JsVal
  deriving DecidableEq

/-- The status and body given to `res.status(...).json(...)`. -/
structure Response where
  status : Nat
  body : ResponseBody
  deriving DecidableEq

/-- A body that has only the `message` field. -/
def messageOnly (message : String) : ResponseBody :=
  { message := message, error := none, transactionMessage := none, estimatedCalories := none }

/-- `ToBoolean` of a string that may be absent: falsy when absent or empty. -/
def stringTruthy : Option String → Bool
  | some s => s ≠ ""
  | none => false

/-- The body of the `try` block, once the three guards before it have passed.
It either returns a response or throws an error message, and in both cases
has made the listed network calls. -/
def tryBlock (env : Env) (privateKey recipientAddress : String) (workouts : List Workout)
    (lang : Option String) : Except String Response × List Call :=
  let reward := rewardLoop workouts
  if reward.totalTokenAmount.le (.num 0) then
    (.ok ⟨400, messageOnly "No valid workouts provided to calculate a reward."⟩, [])
  else
    let generatedMessage := generateTransactionMessage env reward.workoutDetailsForPrompt lang
    let txMessage : PlainMessage := ⟨generatedMessage⟩
    let calls₁ := [Call.generateContent (promptFor env reward.workoutDetailsForPrompt lang),
      Call.getNetworkType]
    match env.getNetworkType with
    | .error e => (.error e, calls₁)
    | .ok networkType =>
      let calls₂ := calls₁ ++ [Call.getGenerationHash]
      match env.getGenerationHash with
      | .error e => (.error e, calls₂)
      | .ok generationHash =>
        match env.createFromPrivateKey privateKey networkType with
        | some e => (.error e, calls₂)
        | none =>
          let senderAccount : Account := ⟨privateKey, networkType⟩
          match env.createFromRawAddress recipientAddress with
          | some e => (.error e, calls₂)
          | none =>
            let transferTransaction : TransferTransaction :=
              { epochAdjustment := 1615853188, deadlineHours := 2,
                recipient := recipientAddress, mosaicId := "44FD959F9F2ECF4D",
                amount := reward.totalTokenAmount, message := txMessage,
                networkType := networkType, maxFee := 100 }
            match env.createTransfer transferTransaction with
            | some e => (.error e, calls₂)
            | none =>
              match env.sign senderAccount transferTransaction generationHash with
              | some e => (.error e, calls₂)
              | none =>
                let signedTx : SignedTransaction :=
                  ⟨senderAccount, transferTransaction, generationHash⟩
                let calls₃ := calls₂ ++ [Call.announce signedTx]
                match env.announce signedTx with
                | some e => (.error e, calls₃)
                | none =>
                  (.ok ⟨200,
                    { message := "Transaction announced successfully!",
                      error := none,
                      transactionMessage := some txMessage.payload,
                      estimatedCalories := some reward.totalCalories }⟩, calls₃)

/-- The exported handler: its response and the network calls it made. -/
def handler (env : Env) (req : Request) : Response × List Call :=
  if req.method ≠ "POST" then
    (⟨405, messageOnly "Method Not Allowed"⟩, [])
  else if !stringTruthy env.PRIVATE_KEY then
    (⟨500, messageOnly "Server configuration error: Private key not set."⟩, [])
  else if !stringTruthy req.recipientAddress || req.workouts.isNone
      || (req.workouts.getD []).length == 0 then
    (⟨400, messageOnly
      "Invalid input. Please provide a valid address and at least one workout."⟩, [])
  else
    match tryBlock env (env.PRIVATE_KEY.getD "") (req.recipientAddress.getD "")
        (req.workouts.getD []) req.lang with
    | (.ok response, calls) => (response, calls)
    | (.error e, calls) =>
      (⟨500, { message := "An error occurred during the transaction process.",
               error := some e, transactionMessage := none, estimatedCalories := none }⟩, calls)

/-- An environment in which every collaborator succeeds, except that only
`TBQ4FKXGUD7VQ3YQZ6IYAF36GD5PXGZVLGITMAA` parses as an address. -/
def stubEnv : Env :=
  { PRIVATE_KEY := some "0123456789ABCDEF"
    numberToString := fun _ => "0.5"
    generateContent := fun _ => .text "Keep pushing!"
    getNetworkType := .ok 152
    getGenerationHash := .ok "7FCCD304802016BEBBCD342A332F91FF1F3BB5E902988B352697BE245F48E836"
    createFromPrivateKey := fun _ _ => none
    createFromRawAddress := fun raw =>
      if raw = "TBQ4FKXGUD7VQ3YQZ6IYAF36GD5PXGZVLGITMAA" then none
      else some "Address is not valid"
    createTransfer := fun _ => none
    sign := fun _ _ _ => none
    announce := fun _ => none }

/-! ## The reward as the specification words it -/

/-- The kinds of the catalog. -/
def catalogKinds : List String :=
  ["crunches", "pushups", "squats", "back_extensions", "general_workout"]

/-- The token multiplier of a catalog kind, as an exact rational. -/
def tokenMultiplierOf (kind : String) : ℚ :=
  (([("crunches", 1.0), ("pushups", 1.2), ("squats", 1.5), ("back_extensions", 1.2),
    ("general_workout", 1.0)] : List (String × ℚ)).lookup kind).getD 0

/-- The calories per repetition of a catalog kind, as an exact rational. -/
def caloriesPerRepOf (kind : String) : ℚ :=
  (([("crunches", 0.4), ("pushups", 0.6), ("squats", 0.8), ("back_extensions", 0.5),
    ("general_workout", 0.5)] : List (String × ℚ)).lookup kind).getD 0

/-- The display name of a catalog kind. -/
def displayNameOf (kind : String) : Option String :=
  ([("crunches", "腹筋"), ("pushups", "腕立て伏せ"), ("squats", "スクワット"),
    ("back_extensions", "背筋"), ("general_workout", "筋トレ全般")] : List (String × String)).lookup kind

/-- The number of repetitions of an entry, `0` when it carries no number. -/
def repsOf : JsVal → ℚ
  | .num q => q
  | _ => 0

/-- A valid entry: a catalog kind and a number of repetitions above zero. -/
def isValidEntry (w : Workout) : Bool :=
  decide (w.type ∈ catalogKinds) && decide (0 < repsOf w.reps)

/-- Token contribution of one entry: the floor of repetitions times multiplier. -/
def entryTokens (w : Workout) : ℤ :=
  ⌊repsOf w.reps * tokenMultiplierOf w.type⌋

/-- Calorie contribution of one entry: repetitions times calories per repetition. -/
def entryCalories (w : Workout) : ℚ :=
  repsOf w.reps * caloriesPerRepOf w.type

/-- The entry as it is recorded for the summary text. -/
def entryDetail (w : Workout) : WorkoutDetail :=
  { type := w.type, name := displayNameOf w.type, reps := w.reps }

/-- Sum of the token contributions of the valid entries. -/
def specTokens (ws : List Workout) : ℤ :=
  ((ws.filter isValidEntry).map entryTokens).sum

/-- Sum of the calorie contributions of the valid entries. -/
def specCalories (ws : List Workout) : ℚ :=
  ((ws.filter isValidEntry).map entryCalories).sum

/-- Whether a key is read from `Object.prototype` rather than from the catalog. -/
def isInheritedKey (key : String) : Bool :=
  (objectPrototype.lookup key).isSome

/-- The English name of a catalog kind. -/
def englishNameOf (kind : String) : Option String :=
  ([("crunches", "Crunches"), ("pushups", "Push-ups"), ("squats", "Squats"),
    ("back_extensions", "Back Extensions"), ("general_workout", "General Workout")] :
      List (String × String)).lookup kind

/-- The floor of the sum, over the valid entries, of repetitions times
multiplier: one floor applied to the whole sum. -/
def floorOfSumTokens (ws : List Workout) : ℤ :=
  ⌊((ws.filter isValidEntry).map fun w => repsOf w.reps * tokenMultiplierOf w.type).sum⌋

/-- Whether a network call is a call of `announce`. -/
def isAnnounce : Call → Bool
  | .announce _ => true
  | _ => false

/-! ## The level lookup of the client (`src/app.js`) -/

/-- The constant `LEVEL_THRESHOLDS`. -/
def LEVEL_THRESHOLDS : List Nat :=
  [0, 1000, 2500, 5000, 10000, 15000, 25000, 37500, 50000, 75000, 100000]

/-- The constant `LEVEL_NAME_KEYS`. -/
def LEVEL_NAME_KEYS : List String :=
  ["level_beginner", "level_rookie", "level_apprentice", "level_intermediate", "level_veteran",
   "level_pro", "level_sage", "level_steel", "level_god", "level_legend", "level_master"]

/-- The loop `for (let i = 0; i < LEVEL_THRESHOLDS.length; i++)`, run from
index `i` over the thresholds that remain from that index on: when the count
reaches the threshold, `currentLevelIndex` becomes `i` and the loop goes on,
otherwise the loop breaks. -/
def levelLoop (currentTokenCount : Nat) : List Nat → Nat → Nat → Nat
  | [], _, currentLevelIndex => currentLevelIndex
  | threshold :: rest, i, currentLevelIndex =>
    if currentTokenCount ≥ threshold then levelLoop currentTokenCount rest (i + 1) i
    else currentLevelIndex

/-- The value of `currentLevelIndex` after the loop in
`getAndDisplayTokenBalance` (lines 237 to 244). -/
def balanceLevelIndex (currentTokenCount : Nat) : Nat :=
  levelLoop currentTokenCount LEVEL_THRESHOLDS 0 0

/-- The value of `currentLevelIndex` after the loop in `shareOnSns` (lines
295 to 302). -/
def shareLevelIndex (currentTokenCount : Nat) : Nat :=
  levelLoop currentTokenCount LEVEL_THRESHOLDS 0 0

/-- The constant `backgroundIndex`, `Math.min(currentLevelIndex, 9)`. -/
def backgroundIndex (currentLevelIndex : Nat) : Nat :=
  min currentLevelIndex 9

end SendTransaction

namespace SendTransaction

/-! ## The reward loop computes the specified sums -/

theorem lookup_of_not_catalog {key : String} (h : key ∉ catalogKinds) :
    WORKOUT_SETTINGS.lookup key = none := by
  simp only [catalogKinds, List.mem_cons, List.mem_singleton, List.not_mem_nil, or_false,
    not_or] at h
  obtain ⟨h1, h2, h3, h4, h5⟩ := h
  simp [WORKOUT_SETTINGS, List.lookup, beq_false_of_ne h1, beq_false_of_ne h2,
    beq_false_of_ne h3, beq_false_of_ne h4, beq_false_of_ne h5]

theorem getSettings_of_catalog {key : String} (h : key ∈ catalogKinds) :
    ∃ nameEn, getSettings key = some ⟨displayNameOf key, nameEn,
      .num (tokenMultiplierOf key), .num (caloriesPerRepOf key)⟩ := by
  simp only [catalogKinds, List.mem_cons, List.mem_singleton, List.not_mem_nil, or_false] at h
  rcases h with h | h | h | h | h <;> subst h <;>
    simp [getSettings, WORKOUT_SETTINGS, List.lookup, displayNameOf, tokenMultiplierOf,
      caloriesPerRepOf]

theorem getSettings_of_unknown {key : String} (h : key ∉ catalogKinds)
    (h' : isInheritedKey key = false) : getSettings key = none := by
  have h'' : objectPrototype.lookup key = none := by
    cases hl : objectPrototype.lookup key with
    | none => rfl
    | some v => simp [isInheritedKey, hl] at h'
  simp [getSettings, lookup_of_not_catalog h, h'']

theorem repsRejected_eq (reps : JsVal) :
    repsRejected reps = !decide (0 < repsOf reps) := by
  cases reps with
  | undefined => simp [repsRejected, JsVal.truthy, repsOf]
  | nan => simp [repsRejected, JsVal.truthy, repsOf]
  | num q =>
    simp only [repsRejected, JsVal.truthy, JsVal.le, JsVal.toNumber, repsOf]
    by_cases hq : 0 < q
    · have h1 : q ≠ 0 := ne_of_gt hq
      have h2 : ¬ q ≤ 0 := not_le.mpr hq
      simp [h1, h2, hq]
    · have h2 : q ≤ 0 := not_lt.mp hq
      simp [h2, hq]

/-- One iteration on an entry whose kind is not read from `Object.prototype`:
a valid entry adds its two contributions and is recorded, any other entry
leaves the three variables unchanged. -/
theorem rewardStep_eq (a c : ℚ) (d : List WorkoutDetail) (w : Workout)
    (hw : isInheritedKey w.type = false) :
    rewardStep ⟨.num a, .num c, d⟩ w =
      if isValidEntry w then
        ⟨.num (a + entryTokens w), .num (c + entryCalories w), d ++ [entryDetail w]⟩
      else ⟨.num a, .num c, d⟩ := by
  by_cases hk : w.type ∈ catalogKinds
  · obtain ⟨nameEn, hs⟩ := getSettings_of_catalog hk
    by_cases hr : 0 < repsOf w.reps
    · obtain ⟨q, hq⟩ : ∃ q, w.reps = .num q := by
        cases h : w.reps with
        | undefined => simp [h, repsOf] at hr
        | nan => simp [h, repsOf] at hr
        | num q => exact ⟨q, rfl⟩
      have hq0 : 0 < q := by simpa [hq, repsOf] using hr
      have hq1 : ¬ q ≤ 0 := not_le.mpr hq0
      simp [rewardStep, hs, repsRejected_eq, isValidEntry, hk, entryTokens, entryCalories,
        entryDetail, hq, JsVal.add, JsVal.mul, JsVal.floor, JsVal.toNumber, repsOf, hq0, hq1]
    · simp [rewardStep, hs, repsRejected_eq, isValidEntry, hk, hr]
  · simp [rewardStep, getSettings_of_unknown hk hw, isValidEntry, hk]

theorem foldl_rewardStep_eq (ws : List Workout) (hws : ∀ w ∈ ws, isInheritedKey w.type = false)
    (a c : ℚ) (d : List WorkoutDetail) :
    ws.foldl rewardStep ⟨.num a, .num c, d⟩ =
      ⟨.num (a + specTokens ws), .num (c + specCalories ws),
        d ++ (ws.filter isValidEntry).map entryDetail⟩ := by
  induction ws generalizing a c d with
  | nil => simp [specTokens, specCalories]
  | cons w ws ih =>
    have hw : isInheritedKey w.type = false := hws w (List.mem_cons_self _ _)
    have hrest : ∀ v ∈ ws, isInheritedKey v.type = false :=
      fun v hv => hws v (List.mem_cons_of_mem _ hv)
    rw [List.foldl_cons, rewardStep_eq a c d w hw]
    by_cases hv : isValidEntry w = true
    · rw [if_pos hv, ih hrest]
      simp [specTokens, specCalories, List.filter_cons, hv, add_assoc]
    · rw [if_neg hv, ih hrest]
      simp [specTokens, specCalories, List.filter_cons, hv]

/-- The loop on a list none of whose kinds is read from `Object.prototype`:
the totals are the two sums over the valid entries and the recorded list is
the valid entries in input order. -/
theorem rewardLoop_eq (ws : List Workout) (hws : ∀ w ∈ ws, isInheritedKey w.type = false) :
    rewardLoop ws =
      ⟨.num (specTokens ws), .num (specCalories ws), (ws.filter isValidEntry).map entryDetail⟩ := by
  have h := foldl_rewardStep_eq ws hws 0 0 []
  simpa [rewardLoop, rewardInit] using h

theorem not_inherited_of_catalog {key : String} (h : key ∈ catalogKinds) :
    isInheritedKey key = false := by
  simp only [catalogKinds, List.mem_cons, List.mem_singleton, List.not_mem_nil, or_false] at h
  rcases h with h | h | h | h | h <;> subst h <;> decide

theorem one_le_tokenMultiplierOf {key : String} (h : key ∈ catalogKinds) :
    1 ≤ tokenMultiplierOf key := by
  simp only [catalogKinds, List.mem_cons, List.mem_singleton, List.not_mem_nil, or_false] at h
  rcases h with h | h | h | h | h <;> subst h <;>
    simp [tokenMultiplierOf, List.lookup] <;> norm_num

theorem specTokens_cons (w : Workout) (ws : List Workout) :
    specTokens (w :: ws) = (if isValidEntry w then entryTokens w else 0) + specTokens ws := by
  by_cases hv : isValidEntry w = true <;> simp [specTokens, List.filter_cons, hv]

theorem entryTokens_mono {kind : String} (hk : kind ∈ catalogKinds) {q r : ℚ} (hqr : q ≤ r) :
    entryTokens ⟨kind, .num q⟩ ≤ entryTokens ⟨kind, .num r⟩ := by
  have hm : 0 ≤ tokenMultiplierOf kind := le_trans zero_le_one (one_le_tokenMultiplierOf hk)
  exact Int.floor_mono (mul_le_mul_of_nonneg_right hqr hm)

theorem specTokens_set_le (ws : List Workout)
    (h : ∀ w ∈ ws, w.type ∈ catalogKinds ∧ ∃ q : ℚ, 0 < q ∧ w.reps = .num q)
    (i : ℕ) (hi : i < ws.length) (r : ℚ) (hr : repsOf ws[i].reps ≤ r) :
    specTokens ws ≤ specTokens (ws.set i ⟨ws[i].type, .num r⟩) := by
  induction ws generalizing i with
  | nil => simp at hi
  | cons w ws ih =>
    obtain ⟨hk, q, hq0, hq⟩ := h w (List.mem_cons_self _ _)
    cases i with
    | zero =>
      simp only [List.getElem_cons_zero, List.set_cons_zero] at hr ⊢
      rw [specTokens_cons, specTokens_cons]
      have hqr : q ≤ r := by simpa [hq, repsOf] using hr
      have hv : isValidEntry w = true := by simp [isValidEntry, hk, hq, repsOf, hq0]
      have hv' : isValidEntry ⟨w.type, .num r⟩ = true := by
        simp [isValidEntry, hk, repsOf, lt_of_lt_of_le hq0 hqr]
      have hm := entryTokens_mono hk hqr
      have hw : w = ⟨w.type, .num q⟩ := by cases w; simp_all
      rw [if_pos hv, if_pos hv']
      rw [hw]
      simpa using hm
    | succ j =>
      simp only [List.getElem_cons_succ, List.set_cons_succ] at hr ⊢
      rw [specTokens_cons, specTokens_cons]
      have hj : j < ws.length := by simpa using hi
      have := ih (fun v hv => h v (List.mem_cons_of_mem _ hv)) j hj hr
      omega

/-- C2. For every workout list in which every entry has a catalog kind and a
number of repetitions above zero, and every position `i`, replacing the
repetitions of entry `i` by any value that is not smaller (same kind, the
other entries unchanged) gives a `totalTokenAmount` that is greater than or
equal to the original one. -/
theorem reward_tokens_monotone (ws : List Workout)
    (h : ∀ w ∈ ws, w.type ∈ catalogKinds ∧ ∃ q : ℚ, 0 < q ∧ w.reps = .num q)
    (i : ℕ) (hi : i < ws.length) (r : ℚ) (hr : repsOf ws[i].reps ≤ r) :
    (rewardLoop ws).totalTokenAmount.le
      (rewardLoop (ws.set i ⟨ws[i].type, .num r⟩)).totalTokenAmount = true := by
  have hin : ∀ w ∈ ws, isInheritedKey w.type = false :=
    fun w hw => not_inherited_of_catalog (h w hw).1
  have hin' : ∀ w ∈ ws.set i ⟨ws[i].type, .num r⟩, isInheritedKey w.type = false := by
    intro w hw
    rcases List.mem_or_eq_of_mem_set hw with hw | hw
    · exact hin w hw
    · subst hw
      exact hin ws[i] (List.getElem_mem _)
  rw [rewardLoop_eq ws hin, rewardLoop_eq _ hin']
  have hle := specTokens_set_le ws h i hi r hr
  have hle' : (specTokens ws : ℚ) ≤ (specTokens (ws.set i ⟨ws[i].type, .num r⟩) : ℚ) := by
    exact_mod_cast hle
  simp [JsVal.le, JsVal.toNumber, hle']

/-- C2, at twenty crunches followed by ten push-ups, the push-ups raised to
thirteen: 32 tokens become 35. -/
theorem reward_tokens_monotone_witness :
    (∀ w ∈ [(⟨"crunches", .num 20⟩ : Workout), ⟨"pushups", .num 10⟩],
        w.type ∈ catalogKinds ∧ ∃ q : ℚ, 0 < q ∧ w.reps = .num q) ∧
      (rewardLoop [⟨"crunches", .num 20⟩, ⟨"pushups", .num 10⟩]).totalTokenAmount.le
        (rewardLoop [⟨"crunches", .num 20⟩, ⟨"pushups", .num 13⟩]).totalTokenAmount = true := by
  have h2 : ∀ w ∈ [(⟨"crunches", .num 20⟩ : Workout), ⟨"pushups", .num 10⟩],
      w.type ∈ catalogKinds ∧ ∃ q : ℚ, 0 < q ∧ w.reps = .num q := by
    intro w hw
    simp only [List.mem_cons, List.mem_singleton, List.not_mem_nil, or_false] at hw
    rcases hw with hw | hw <;> subst hw
    · exact ⟨by decide, 20, by norm_num, rfl⟩
    · exact ⟨by decide, 10, by norm_num, rfl⟩
  refine ⟨h2, ?_⟩
  have h := reward_tokens_monotone _ h2 1 (by simp) 13 (by simp [repsOf]; norm_num)
  simpa using h

/-! ## The gate `totalTokenAmount <= 0` -/

theorem getSettings_multiplier {key : String} {settings : Settings}
    (h : getSettings key = some settings) :
    settings.tokenMultiplier = .undefined ∨
      ∃ m : ℚ, 1 ≤ m ∧ settings.tokenMultiplier = .num m := by
  by_cases hk : key ∈ catalogKinds
  · obtain ⟨nameEn, hs⟩ := getSettings_of_catalog hk
    rw [hs] at h
    injection h with h
    subst h
    exact Or.inr ⟨_, one_le_tokenMultiplierOf hk, rfl⟩
  · left
    unfold getSettings at h
    rw [lookup_of_not_catalog hk] at h
    cases hl : objectPrototype.lookup key with
    | none => simp [hl] at h
    | some v =>
      simp only [hl] at h
      injection h with h
      subst h
      rfl

/-- One iteration keeps a lower bound `b` on `totalTokenAmount`: the total is
`NaN` or a number that is at least `b`. -/
theorem rewardStep_bound (b : ℚ) (acc : Reward) (w : Workout)
    (h : acc.totalTokenAmount = .nan ∨ ∃ q, b ≤ q ∧ acc.totalTokenAmount = .num q) :
    (rewardStep acc w).totalTokenAmount = .nan ∨
      ∃ q, b ≤ q ∧ (rewardStep acc w).totalTokenAmount = .num q := by
  unfold rewardStep
  cases hs : getSettings w.type with
  | none => simpa using h
  | some settings =>
    by_cases hrej : repsRejected w.reps = true
    · simpa [hrej] using h
    · simp only [hrej, if_false, Bool.false_eq_true]
      have hpos : 0 < repsOf w.reps := by
        rw [repsRejected_eq] at hrej
        simpa using hrej
      obtain ⟨r, hr⟩ : ∃ r, w.reps = .num r := by
        cases hw : w.reps with
        | undefined => simp [hw, repsOf] at hpos
        | nan => simp [hw, repsOf] at hpos
        | num r => exact ⟨r, rfl⟩
      have hr0 : 0 < r := by simpa [hr, repsOf] using hpos
      rcases getSettings_multiplier hs with hm | ⟨m, hm1, hm⟩
      · left
        rcases h with h | ⟨q, _, h⟩ <;>
          simp [h, hm, hr, JsVal.add, JsVal.mul, JsVal.floor, JsVal.toNumber]
      · rcases h with h | ⟨q, hq, h⟩
        · left
          simp [h, hm, hr, JsVal.add, JsVal.mul, JsVal.floor, JsVal.toNumber]
        · right
          have hfl : (0 : ℤ) ≤ ⌊r * m⌋ :=
            Int.floor_nonneg.mpr (mul_nonneg (le_of_lt hr0) (le_trans zero_le_one hm1))
          have hfl' : (0 : ℚ) ≤ (⌊r * m⌋ : ℤ) := by exact_mod_cast hfl
          refine ⟨q + (⌊r * m⌋ : ℤ), by linarith, ?_⟩
          simp [h, hm, hr, JsVal.add, JsVal.mul, JsVal.floor, JsVal.toNumber]

/-- An iteration on a catalog entry with a positive integer number of
repetitions raises the lower bound from 0 to 1. -/
theorem rewardStep_valid_bound (acc : Reward) (w : Workout)
    (h : acc.totalTokenAmount = .nan ∨ ∃ q : ℚ, 0 ≤ q ∧ acc.totalTokenAmount = .num q)
    (hw : w.type ∈ catalogKinds ∧ ∃ n : ℤ, 0 < n ∧ w.reps = .num n) :
    (rewardStep acc w).totalTokenAmount = .nan ∨
      ∃ q : ℚ, 1 ≤ q ∧ (rewardStep acc w).totalTokenAmount = .num q := by
  obtain ⟨hk, n, hn, hr⟩ := hw
  obtain ⟨nameEn, hs⟩ := getSettings_of_catalog hk
  have hn1 : (1 : ℚ) ≤ n := by exact_mod_cast hn
  have hn0 : (0 : ℚ) < n := by exact_mod_cast hn
  have hm := one_le_tokenMultiplierOf hk
  have hnot : ¬ ((n : ℚ) ≤ 0) := not_le.mpr hn0
  have hne : (n : ℚ) ≠ 0 := ne_of_gt hn0
  have hfl : (1 : ℤ) ≤ ⌊(n : ℚ) * tokenMultiplierOf w.type⌋ := by
    rw [Int.le_floor]
    have : (1 : ℚ) * 1 ≤ n * tokenMultiplierOf w.type :=
      mul_le_mul hn1 hm zero_le_one (le_of_lt hn0)
    simpa using this
  have hfl' : (1 : ℚ) ≤ (⌊(n : ℚ) * tokenMultiplierOf w.type⌋ : ℤ) := by exact_mod_cast hfl
  rcases h with h | ⟨q, hq, h⟩
  · left
    simp [rewardStep, hs, hr, h, repsRejected, JsVal.truthy, JsVal.le, JsVal.add, JsVal.mul,
      JsVal.floor, JsVal.toNumber, hnot, hne]
  · right
    refine ⟨q + (⌊(n : ℚ) * tokenMultiplierOf w.type⌋ : ℤ), by linarith, ?_⟩
    simp [rewardStep, hs, hr, h, repsRejected, JsVal.truthy, JsVal.le, JsVal.add, JsVal.mul,
      JsVal.floor, JsVal.toNumber, hnot, hne]

theorem foldl_rewardStep_bound (b : ℚ) (ws : List Workout) (acc : Reward)
    (h : acc.totalTokenAmount = .nan ∨ ∃ q, b ≤ q ∧ acc.totalTokenAmount = .num q) :
    (ws.foldl rewardStep acc).totalTokenAmount = .nan ∨
      ∃ q, b ≤ q ∧ (ws.foldl rewardStep acc).totalTokenAmount = .num q := by
  induction ws generalizing acc with
  | nil => simpa using h
  | cons w ws ih => exact ih _ (rewardStep_bound b acc w h)

theorem foldl_rewardStep_valid_bound (ws : List Workout) (acc : Reward)
    (h : acc.totalTokenAmount = .nan ∨ ∃ q : ℚ, 0 ≤ q ∧ acc.totalTokenAmount = .num q)
    (hv : ∃ w ∈ ws, w.type ∈ catalogKinds ∧ ∃ n : ℤ, 0 < n ∧ w.reps = .num n) :
    (ws.foldl rewardStep acc).totalTokenAmount = .nan ∨
      ∃ q : ℚ, 1 ≤ q ∧ (ws.foldl rewardStep acc).totalTokenAmount = .num q := by
  induction ws generalizing acc with
  | nil => simp at hv
  | cons w ws ih =>
    obtain ⟨v, hmem, hvalid⟩ := hv
    rcases List.mem_cons.mp hmem with hhead | htail
    · subst hhead
      exact foldl_rewardStep_bound 1 ws _ (rewardStep_valid_bound acc v h hvalid)
    · exact ih _ (rewardStep_bound 0 acc w h) ⟨v, htail, hvalid⟩

/-- A list with at least one catalog entry whose repetitions are a positive
integer passes the gate: its `totalTokenAmount` is not `<= 0`. -/
theorem reward_gate_open_of_valid (ws : List Workout)
    (hv : ∃ w ∈ ws, w.type ∈ catalogKinds ∧ ∃ n : ℤ, 0 < n ∧ w.reps = .num n) :
    (rewardLoop ws).totalTokenAmount.le (.num 0) = false := by
  have h := foldl_rewardStep_valid_bound ws rewardInit (Or.inr ⟨0, le_refl _, rfl⟩) hv
  unfold rewardLoop
  rcases h with h | ⟨q, hq, h⟩
  · simp [h, JsVal.le, JsVal.toNumber]
  · have : ¬ q ≤ 0 := by linarith
    simp [h, JsVal.le, JsVal.toNumber, this]

/-- An entry whose kind reads as `undefined`, or whose repetitions are absent,
zero or negative, leaves the three variables of the loop unchanged. -/
theorem rewardStep_skip (acc : Reward) (w : Workout)
    (h : getSettings w.type = none ∨ repsRejected w.reps = true) : rewardStep acc w = acc := by
  unfold rewardStep
  rcases h with h | h
  · simp [h]
  · cases hs : getSettings w.type <;> simp [h]

/-- C3, at the failing input. The kind `constructor` is not in the catalog, yet
an entry of that kind with five repetitions is not skipped: appended to fifty
squats it turns both totals, 75 and 40, into `NaN` and is recorded for the
summary text. -/
theorem reward_inherited_kind_not_skipped :
    "constructor" ∉ catalogKinds ∧
      rewardLoop [⟨"squats", .num 50⟩] =
        ⟨.num 75, .num 40, [⟨"squats", some "スクワット", .num 50⟩]⟩ ∧
      rewardLoop [⟨"squats", .num 50⟩, ⟨"constructor", .num 5⟩] =
        ⟨.nan, .nan, [⟨"squats", some "スクワット", .num 50⟩,
          ⟨"constructor", some "Object", .num 5⟩]⟩ := by
  refine ⟨by decide, ?_, ?_⟩
  · simp [rewardLoop, rewardStep, rewardInit, getSettings, WORKOUT_SETTINGS, List.lookup,
      repsRejected, JsVal.truthy, JsVal.le, JsVal.toNumber, JsVal.add, JsVal.mul, JsVal.floor]
    norm_num
  · simp [rewardLoop, rewardStep, rewardInit, getSettings, WORKOUT_SETTINGS, objectPrototype,
      List.lookup, repsRejected, JsVal.truthy, JsVal.le, JsVal.toNumber, JsVal.add, JsVal.mul,
      JsVal.floor]
    norm_num

/-- C4, at the failing input. The list made of three repetitions of the kind
`toString` has no valid entry, so the sum over its valid entries is 0, but the
loop leaves `NaN` in `totalCalories`. -/
theorem reward_calories_inherited_kind :
    [(⟨"toString", .num 3⟩ : Workout)].filter isValidEntry = [] ∧
      specCalories [⟨"toString", .num 3⟩] = 0 ∧
      (rewardLoop [⟨"toString", .num 3⟩]).totalCalories = .nan := by
  refine ⟨by decide, ?_, ?_⟩
  · have h : [(⟨"toString", .num 3⟩ : Workout)].filter isValidEntry = [] := by decide
    simp [specCalories, h]
  · simp [rewardLoop, rewardStep, rewardInit, getSettings, WORKOUT_SETTINGS, objectPrototype,
      List.lookup, repsRejected, JsVal.truthy, JsVal.le, JsVal.toNumber, JsVal.add, JsVal.mul,
      JsVal.floor]
    norm_num

/-- C6, at the failing input. The list made of one repetition of the kind
`valueOf` has integer repetitions and no valid entry, but its
`totalTokenAmount` is `NaN`, for which the test `<= 0` is false. -/
theorem reward_gate_inherited_kind :
    [(⟨"valueOf", .num 1⟩ : Workout)].filter isValidEntry = [] ∧
      (rewardLoop [⟨"valueOf", .num 1⟩]).totalTokenAmount = .nan ∧
      (rewardLoop [⟨"valueOf", .num 1⟩]).totalTokenAmount.le (.num 0) = false := by
  have h : (rewardLoop [⟨"valueOf", .num 1⟩]).totalTokenAmount = .nan := by
    simp [rewardLoop, rewardStep, rewardInit, getSettings, WORKOUT_SETTINGS, objectPrototype,
      List.lookup, repsRejected, JsVal.truthy, JsVal.le, JsVal.toNumber, JsVal.add, JsVal.mul,
      JsVal.floor]
    norm_num
  refine ⟨by decide, h, ?_⟩
  rw [h]
  rfl

/-! ## The handler -/

theorem tryBlock_rejected (env : Env) (privateKey recipientAddress : String)
    (ws : List Workout) (lang : Option String)
    (h : (rewardLoop ws).totalTokenAmount.le (.num 0) = true) :
    tryBlock env privateKey recipientAddress ws lang =
      (.ok ⟨400, messageOnly "No valid workouts provided to calculate a reward."⟩, []) := by
  simp [tryBlock, h]

/-- Past the gate, the `try` block first calls the text service and then asks
for the network type, and the only response it returns itself has status 200. -/
theorem tryBlock_accepted (env : Env) (privateKey recipientAddress : String)
    (ws : List Workout) (lang : Option String)
    (h : (rewardLoop ws).totalTokenAmount.le (.num 0) = false) :
    (∃ rest, (tryBlock env privateKey recipientAddress ws lang).2 =
        Call.generateContent (promptFor env (rewardLoop ws).workoutDetailsForPrompt lang) ::
          Call.getNetworkType :: rest) ∧
      ∀ response, (tryBlock env privateKey recipientAddress ws lang).1 = .ok response →
        response.status = 200 := by
  unfold tryBlock
  simp only [h, Bool.false_eq_true, if_false]
  constructor
  · repeat' split
    all_goals simp
  · intro response
    repeat' split
    all_goals simp
    intro hresp
    rw [← hresp]

/-- When the recipient string does not parse, the `try` block throws and has
not called `announce`. -/
theorem tryBlock_bad_address (env : Env) (privateKey recipientAddress : String)
    (ws : List Workout) (lang : Option String) (e : String)
    (h : (rewardLoop ws).totalTokenAmount.le (.num 0) = false)
    (hbad : env.createFromRawAddress recipientAddress = some e) :
    (∃ e', (tryBlock env privateKey recipientAddress ws lang).1 = .error e') ∧
      ∀ s, Call.announce s ∉ (tryBlock env privateKey recipientAddress ws lang).2 := by
  unfold tryBlock
  simp only [h, Bool.false_eq_true, if_false, hbad]
  constructor
  · repeat' split
    all_goals simp
  · intro s
    repeat' split
    all_goals simp

theorem handler_of_guards (env : Env) (req : Request) (ws : List Workout)
    (hm : req.method = "POST") (hk : stringTruthy env.PRIVATE_KEY = true)
    (ha : stringTruthy req.recipientAddress = true) (hw : req.workouts = some ws)
    (hne : ws ≠ []) :
    handler env req =
      match tryBlock env (env.PRIVATE_KEY.getD "") (req.recipientAddress.getD "") ws req.lang with
      | (.ok response, calls) => (response, calls)
      | (.error e, calls) =>
        (⟨500, { message := "An error occurred during the transaction process.",
                 error := some e, transactionMessage := none, estimatedCalories := none }⟩,
          calls) := by
  unfold handler
  simp [hm, hk, ha, hw, hne]

/-- C5, at the failing input. A POST request with the signing key configured,
a recipient, and the single workout entry of kind `hasOwnProperty` with ten
repetitions (a kind that is not in the catalog) is not answered with status
400: whatever the collaborators do, the handler calls the text service and
then asks the ledger node for the network type. -/
theorem handler_inherited_kind_reaches_ledger (env : Env) :
    "hasOwnProperty" ∉ catalogKinds ∧
      (handler { env with PRIVATE_KEY := some "0123456789ABCDEF" }
        ⟨"POST", some "TBQ4FKXGUD7VQ3YQZ6IYAF36GD5PXGZVLGITMAA",
          some [⟨"hasOwnProperty", .num 10⟩], none⟩).1.status ≠ 400 ∧
      ∃ prompt rest,
        (handler { env with PRIVATE_KEY := some "0123456789ABCDEF" }
          ⟨"POST", some "TBQ4FKXGUD7VQ3YQZ6IYAF36GD5PXGZVLGITMAA",
            some [⟨"hasOwnProperty", .num 10⟩], none⟩).2 =
          Call.generateContent prompt :: Call.getNetworkType :: rest := by
  have hgate : (rewardLoop [⟨"hasOwnProperty", .num 10⟩]).totalTokenAmount.le (.num 0)
      = false := by
    simp [rewardLoop, rewardStep, rewardInit, getSettings, WORKOUT_SETTINGS, objectPrototype,
      List.lookup, repsRejected, JsVal.truthy, JsVal.le, JsVal.toNumber, JsVal.add, JsVal.mul,
      JsVal.floor]
    norm_num
  refine ⟨by decide, ?_⟩
  rw [handler_of_guards _ _ [⟨"hasOwnProperty", .num 10⟩] rfl (by simp [stringTruthy])
    (by simp [stringTruthy]) rfl (by simp)]
  obtain ⟨⟨rest, hcalls⟩, hstatus⟩ := tryBlock_accepted
    { env with PRIVATE_KEY := some "0123456789ABCDEF" } "0123456789ABCDEF"
    "TBQ4FKXGUD7VQ3YQZ6IYAF36GD5PXGZVLGITMAA" [⟨"hasOwnProperty", .num 10⟩] none hgate
  simp only [Option.getD_some]
  rcases hT : tryBlock { env with PRIVATE_KEY := some "0123456789ABCDEF" } "0123456789ABCDEF"
    "TBQ4FKXGUD7VQ3YQZ6IYAF36GD5PXGZVLGITMAA" [⟨"hasOwnProperty", .num 10⟩] none
    with ⟨(e | response), calls⟩
  · rw [hT] at hcalls
    exact ⟨by simp, _, rest, hcalls⟩
  · rw [hT] at hcalls hstatus
    have h200 := hstatus response rfl
    exact ⟨by simp [h200], _, rest, hcalls⟩

/-- C7, refuted as stated. With the signing key configured, fifty squats and
the recipient string `not-an-address`, which the address parser rejects, the
handler does not answer with a status between 400 and 499: it answers 500. -/
theorem handler_malformed_address_not_4xx :
    stringTruthy stubEnv.PRIVATE_KEY = true ∧
      stubEnv.createFromRawAddress "not-an-address" = some "Address is not valid" ∧
      (handler stubEnv ⟨"POST", some "not-an-address", some [⟨"squats", .num 50⟩], none⟩).1.status
        = 500 ∧
      ¬ (400 ≤ (handler stubEnv
            ⟨"POST", some "not-an-address", some [⟨"squats", .num 50⟩], none⟩).1.status ∧
          (handler stubEnv
            ⟨"POST", some "not-an-address", some [⟨"squats", .num 50⟩], none⟩).1.status < 500) := by
  have h : (handler stubEnv
      ⟨"POST", some "not-an-address", some [⟨"squats", .num 50⟩], none⟩).1.status = 500 := by
    simp [handler, tryBlock, stubEnv, stringTruthy, rewardLoop, rewardStep, rewardInit,
      getSettings, WORKOUT_SETTINGS, List.lookup, repsRejected, JsVal.truthy, JsVal.le,
      JsVal.toNumber, JsVal.add, JsVal.mul, JsVal.floor]
    norm_num
  refine ⟨by decide, by decide, h, ?_⟩
  rw [h]
  decide

/-- C7, amended. For every POST request with the signing key configured, at
least one catalog entry with a positive integer number of repetitions, and a
non-empty recipient string that the address parser rejects, the handler
answers with status 500 and never calls `announce`. -/
theorem handler_malformed_address (env : Env) (req : Request) (ws : List Workout)
    (addr e : String)
    (hm : req.method = "POST") (hk : stringTruthy env.PRIVATE_KEY = true)
    (hw : req.workouts = some ws)
    (hv : ∃ w ∈ ws, w.type ∈ catalogKinds ∧ ∃ n : ℤ, 0 < n ∧ w.reps = .num n)
    (ha : req.recipientAddress = some addr) (hne : addr ≠ "")
    (hbad : env.createFromRawAddress addr = some e) :
    (handler env req).1.status = 500 ∧ ∀ s, Call.announce s ∉ (handler env req).2 := by
  have hws : ws ≠ [] := by
    rintro rfl
    simp at hv
  have hat : stringTruthy req.recipientAddress = true := by simp [ha, stringTruthy, hne]
  rw [handler_of_guards env req ws hm hk hat hw hws]
  have hgate := reward_gate_open_of_valid ws hv
  have haddr : req.recipientAddress.getD "" = addr := by simp [ha]
  obtain ⟨⟨e', herr⟩, hcalls⟩ := tryBlock_bad_address env (env.PRIVATE_KEY.getD "")
    (req.recipientAddress.getD "") ws req.lang e hgate (by rw [haddr]; exact hbad)
  rcases hT : tryBlock env (env.PRIVATE_KEY.getD "") (req.recipientAddress.getD "") ws req.lang
    with ⟨(err2 | response), calls⟩
  · rw [hT] at hcalls
    exact ⟨rfl, hcalls⟩
  · rw [hT] at herr
    simp at herr

/-- C7 amended, at the stub environment with fifty squats and the recipient
string `not-an-address`. -/
theorem handler_malformed_address_witness :
    stubEnv.createFromRawAddress "not-an-address" = some "Address is not valid" ∧
      (handler stubEnv
        ⟨"POST", some "not-an-address", some [⟨"squats", .num 50⟩], some "en"⟩).1.status = 500 ∧
      ∀ s, Call.announce s ∉ (handler stubEnv
        ⟨"POST", some "not-an-address", some [⟨"squats", .num 50⟩], some "en"⟩).2 :=
  ⟨by decide,
    handler_malformed_address stubEnv
      ⟨"POST", some "not-an-address", some [⟨"squats", .num 50⟩], some "en"⟩
      [⟨"squats", .num 50⟩] "not-an-address" "Address is not valid" rfl (by decide) rfl
      ⟨⟨"squats", .num 50⟩, by simp, by decide, 50, by norm_num, by norm_num⟩ rfl (by decide)
      (by decide)⟩

/-- C8, refuted as stated. When the signing key is not set, a POST request
without recipient address is answered with status 500, not 400. -/
theorem handler_missing_key_not_400 :
    stringTruthy ({ stubEnv with PRIVATE_KEY := none } : Env).PRIVATE_KEY = false ∧
      (handler { stubEnv with PRIVATE_KEY := none }
        ⟨"POST", none, some [⟨"squats", .num 50⟩], none⟩).1.status = 500 ∧
      (handler { stubEnv with PRIVATE_KEY := none }
        ⟨"POST", none, some [⟨"squats", .num 50⟩], none⟩).1.status ≠ 400 := by
  refine ⟨rfl, ?_, ?_⟩ <;> simp [handler, stubEnv, stringTruthy]

/-- C8, amended. For every POST request whose recipient address is absent or
empty, or whose `workouts` is not a non-empty array, the handler makes no
external call; it answers with status 400 when the signing key is set and
with status 500 when it is not. -/
theorem handler_invalid_input (env : Env) (req : Request) (hm : req.method = "POST")
    (hbad : stringTruthy req.recipientAddress = false ∨ req.workouts = none ∨
      req.workouts = some []) :
    (handler env req).2 = [] ∧
      (handler env req).1.status = if stringTruthy env.PRIVATE_KEY then 400 else 500 := by
  unfold handler
  by_cases hk : stringTruthy env.PRIVATE_KEY = true
  · rcases hbad with h | h | h <;> simp [hm, hk, h]
  · rcases hbad with h | h | h <;> simp [hm, hk, h]

/-- C8 amended, at the stub environment (signing key set) with an empty
recipient address: status 400 and no call. -/
theorem handler_invalid_input_witness :
    stringTruthy (some "") = false ∧
      (handler stubEnv ⟨"POST", some "", some [⟨"squats", .num 50⟩], none⟩).2 = [] ∧
      (handler stubEnv ⟨"POST", some "", some [⟨"squats", .num 50⟩], none⟩).1.status = 400 := by
  have h := handler_invalid_input stubEnv
    ⟨"POST", some "", some [⟨"squats", .num 50⟩], none⟩ rfl (Or.inl (by decide))
  refine ⟨by decide, h.1, ?_⟩
  rw [h.2]
  decide

/-! ## The message generator -/

theorem fallbackMessage_ne_empty (lang : Option String) : fallbackMessage lang ≠ "" := by
  unfold fallbackMessage
  split <;> decide

theorem isEn_iff (lang : Option String) : isEn lang = true ↔ lang = some "en" := by
  cases lang with
  | none => simp [isEn]
  | some l => simp [isEn]

/-- C9, refuted as stated. When the text service answers with the empty
string, the message generator returns the empty string. -/
theorem generateTransactionMessage_empty :
    generateTransactionMessage { stubEnv with generateContent := fun _ => .text "" }
      [⟨"squats", some "スクワット", .num 50⟩] (some "en") = "" := by
  simp [generateTransactionMessage]

/-- C9, amended. For every workout list, every `lang` and every behaviour of
the text service, the returned message is empty exactly when the text service
returns the empty string; in every other case, in particular whenever the
call fails, it is a non-empty string. -/
theorem generateTransactionMessage_eq_empty_iff (env : Env) (workouts : List WorkoutDetail)
    (lang : Option String) :
    generateTransactionMessage env workouts lang = "" ↔
      env.generateContent (promptFor env workouts lang) = .text "" := by
  unfold generateTransactionMessage
  cases h : env.generateContent (promptFor env workouts lang) with
  | text s => simp
  | generateContentThrows e => simpa using fallbackMessage_ne_empty lang
  | responseRejects e => simpa using fallbackMessage_ne_empty lang
  | textThrows e => simpa using fallbackMessage_ne_empty lang

/-- C10. Whenever the call of the text service fails (`generateContent`
throws, awaiting the response throws, or `text()` throws), the message
generator returns the fixed fallback, whatever the workout list: the English
sentence when `lang` is `en`, the Japanese one for every other `lang`, an
absent `lang` included. -/
theorem generateTransactionMessage_fallback (env : Env) (workouts : List WorkoutDetail)
    (lang : Option String)
    (hfail : ∀ s, env.generateContent (promptFor env workouts lang) ≠ .text s) :
    generateTransactionMessage env workouts lang =
      if lang = some "en" then "Great workout! Nice fight!"
      else "素晴らしいトレーニングでした！ナイスファイト！" := by
  have hfb : fallbackMessage lang =
      if lang = some "en" then "Great workout! Nice fight!"
      else "素晴らしいトレーニングでした！ナイスファイト！" := by
    unfold fallbackMessage
    by_cases hl : lang = some "en"
    · have hen : isEn lang = true := (isEn_iff lang).mpr hl
      rw [if_pos hen, if_pos hl]
    · have : isEn lang = false := by
        cases hi : isEn lang with
        | false => rfl
        | true => exact absurd ((isEn_iff lang).mp hi) hl
      rw [if_neg hl, this]
      simp
  unfold generateTransactionMessage
  cases h : env.generateContent (promptFor env workouts lang) with
  | text s => exact absurd h (hfail s)
  | generateContentThrows e => simpa using hfb
  | responseRejects e => simpa using hfb
  | textThrows e => simpa using hfb

/-- C10, at a text service whose `text()` always throws, once with `lang`
absent and once with `lang` set to `en`. -/
theorem generateTransactionMessage_fallback_witness :
    generateTransactionMessage { stubEnv with generateContent := fun _ => .textThrows "blocked" }
        [⟨"squats", some "スクワット", .num 50⟩] none
        = "素晴らしいトレーニングでした！ナイスファイト！" ∧
      generateTransactionMessage
        { stubEnv with generateContent := fun _ => .responseRejects "503" }
        [⟨"pushups", some "腕立て伏せ", .num 20⟩] (some "en") = "Great workout! Nice fight!" := by
  constructor
  · have h := generateTransactionMessage_fallback
      { stubEnv with generateContent := fun _ => .textThrows "blocked" }
      [⟨"squats", some "スクワット", .num 50⟩] none (by intro s; simp)
    simpa using h
  · have h := generateTransactionMessage_fallback
      { stubEnv with generateContent := fun _ => .responseRejects "503" }
      [⟨"pushups", some "腕立て伏せ", .num 20⟩] (some "en") (by intro s; simp)
    simpa using h

/-! ## Ledger failures and the outcome of a request -/

/-- At most one call of `announce` is made by the `try` block; it returns a
response with status 200 or 400 only, and status 200 only after one
acknowledged call of `announce`, with the generated message and the
calorie total in the body. -/
theorem tryBlock_outcome (env : Env) (privateKey recipientAddress : String)
    (ws : List Workout) (lang : Option String) :
    ((tryBlock env privateKey recipientAddress ws lang).2.filter isAnnounce).length ≤ 1 ∧
      ∀ response, (tryBlock env privateKey recipientAddress ws lang).1 = .ok response →
        response.status = 400 ∨
        (response.status = 200 ∧ ∃ s,
          (tryBlock env privateKey recipientAddress ws lang).2.filter isAnnounce
            = [Call.announce s] ∧
          env.announce s = none ∧
          response.body.transactionMessage =
            some (generateTransactionMessage env (rewardLoop ws).workoutDetailsForPrompt lang) ∧
          response.body.estimatedCalories = some (rewardLoop ws).totalCalories) := by
  unfold tryBlock
  by_cases hg : (rewardLoop ws).totalTokenAmount.le (.num 0) = true
  · simp only [hg, if_true]
    refine ⟨by simp, ?_⟩
    intro response hresp
    left
    simp only [Except.ok.injEq] at hresp
    rw [← hresp]
  · simp only [hg, if_false, Bool.false_eq_true]
    constructor
    · repeat' split
      all_goals simp [isAnnounce]
    · intro response
      repeat' split
      all_goals simp [isAnnounce]
      rename_i hack
      intro hresp
      rw [← hresp]
      simp [hack]

/-- When the network type or the generation hash cannot be fetched, the `try`
block throws the error of the fetch and has not called `announce`. -/
theorem tryBlock_fetch_failure (env : Env) (privateKey recipientAddress : String)
    (ws : List Workout) (lang : Option String) (e : String)
    (hgate : (rewardLoop ws).totalTokenAmount.le (.num 0) = false)
    (hfail : env.getNetworkType = .error e ∨
      ((∃ networkType, env.getNetworkType = .ok networkType) ∧
        env.getGenerationHash = .error e)) :
    (tryBlock env privateKey recipientAddress ws lang).1 = .error e ∧
      ∀ s, Call.announce s ∉ (tryBlock env privateKey recipientAddress ws lang).2 := by
  unfold tryBlock
  simp only [hgate, Bool.false_eq_true, if_false]
  rcases hfail with h | ⟨⟨networkType, h1⟩, h2⟩
  · simp [h]
  · simp [h1, h2]

/-- C11. For every request that reaches the ledger steps (POST, signing key
set, recipient present, non-empty workouts whose total passes the gate), if
fetching the network type or the generation hash fails with error `e`, the
handler answers with status 500, the `error` field of the body carries `e`,
and `announce` is never called. -/
theorem handler_ledger_fetch_failure (env : Env) (req : Request) (ws : List Workout)
    (e : String)
    (hm : req.method = "POST") (hk : stringTruthy env.PRIVATE_KEY = true)
    (ha : stringTruthy req.recipientAddress = true) (hw : req.workouts = some ws)
    (hne : ws ≠ [])
    (hgate : (rewardLoop ws).totalTokenAmount.le (.num 0) = false)
    (hfail : env.getNetworkType = .error e ∨
      ((∃ networkType, env.getNetworkType = .ok networkType) ∧
        env.getGenerationHash = .error e)) :
    (handler env req).1.status = 500 ∧ (handler env req).1.body.error = some e ∧
      ∀ s, Call.announce s ∉ (handler env req).2 := by
  rw [handler_of_guards env req ws hm hk ha hw hne]
  obtain ⟨herr, hcalls⟩ := tryBlock_fetch_failure env (env.PRIVATE_KEY.getD "")
    (req.recipientAddress.getD "") ws req.lang e hgate hfail
  rcases hT : tryBlock env (env.PRIVATE_KEY.getD "") (req.recipientAddress.getD "") ws req.lang
    with ⟨(err | response), calls⟩
  · rw [hT] at herr hcalls
    simp only [Except.error.injEq] at herr
    subst herr
    exact ⟨rfl, rfl, hcalls⟩
  · rw [hT] at herr
    simp at herr

/-- C11, at the stub environment with a node that does not answer the request
for the generation hash, for fifty squats. -/
theorem handler_ledger_fetch_failure_witness :
    (rewardLoop [⟨"squats", .num 50⟩]).totalTokenAmount.le (.num 0) = false ∧
      (handler { stubEnv with getGenerationHash := .error "connect ETIMEDOUT" }
        ⟨"POST", some "TBQ4FKXGUD7VQ3YQZ6IYAF36GD5PXGZVLGITMAA",
          some [⟨"squats", .num 50⟩], none⟩).1.status = 500 ∧
      (handler { stubEnv with getGenerationHash := .error "connect ETIMEDOUT" }
        ⟨"POST", some "TBQ4FKXGUD7VQ3YQZ6IYAF36GD5PXGZVLGITMAA",
          some [⟨"squats", .num 50⟩], none⟩).1.body.error = some "connect ETIMEDOUT" ∧
      ∀ s, Call.announce s ∉
        (handler { stubEnv with getGenerationHash := .error "connect ETIMEDOUT" }
          ⟨"POST", some "TBQ4FKXGUD7VQ3YQZ6IYAF36GD5PXGZVLGITMAA",
            some [⟨"squats", .num 50⟩], none⟩).2 := by
  have hgate : (rewardLoop [⟨"squats", .num 50⟩]).totalTokenAmount.le (.num 0) = false :=
    reward_gate_open_of_valid _
      ⟨⟨"squats", .num 50⟩, by simp, by decide, 50, by norm_num, by norm_num⟩
  exact ⟨hgate,
    handler_ledger_fetch_failure
      { stubEnv with getGenerationHash := .error "connect ETIMEDOUT" }
      ⟨"POST", some "TBQ4FKXGUD7VQ3YQZ6IYAF36GD5PXGZVLGITMAA", some [⟨"squats", .num 50⟩], none⟩
      [⟨"squats", .num 50⟩] "connect ETIMEDOUT" rfl (by decide) (by decide) rfl (by simp) hgate
      (Or.inr ⟨⟨152, rfl⟩, rfl⟩)⟩

/-- C12. The handler answers with status 200 only if `announce` was called
exactly once in that request and was acknowledged, and then the body carries
the string returned by the message generator as `transactionMessage` and the
computed `totalCalories` as `estimatedCalories`. In every run `announce` is
called at most once, and a response that is not 200 has status 400, 405 or
500. -/
theorem handler_success_only_after_announce (env : Env) (req : Request) :
    ((handler env req).2.filter isAnnounce).length ≤ 1 ∧
      ((handler env req).1.status = 200 →
        ∃ ws s, req.workouts = some ws ∧
          (handler env req).2.filter isAnnounce = [Call.announce s] ∧
          env.announce s = none ∧
          (handler env req).1.body.transactionMessage =
            some (generateTransactionMessage env (rewardLoop ws).workoutDetailsForPrompt
              req.lang) ∧
          (handler env req).1.body.estimatedCalories = some (rewardLoop ws).totalCalories) ∧
      ((handler env req).1.status ≠ 200 →
        (handler env req).1.status = 400 ∨ (handler env req).1.status = 405 ∨
          (handler env req).1.status = 500) := by
  by_cases hm : req.method = "POST"
  swap
  · simp [handler, hm]
  by_cases hk : stringTruthy env.PRIVATE_KEY = true
  swap
  · simp [handler, hm, hk]
  by_cases ha : stringTruthy req.recipientAddress = true
  swap
  · simp [handler, hm, hk, ha]
  cases hw : req.workouts with
  | none => simp [handler, hm, hk, ha, hw]
  | some ws =>
    by_cases hne : ws = []
    · simp [handler, hm, hk, ha, hw, hne]
    · rw [handler_of_guards env req ws hm hk ha hw hne]
      obtain ⟨hcount, hok⟩ := tryBlock_outcome env (env.PRIVATE_KEY.getD "")
        (req.recipientAddress.getD "") ws req.lang
      rcases hT : tryBlock env (env.PRIVATE_KEY.getD "") (req.recipientAddress.getD "") ws
        req.lang with ⟨(err | response), calls⟩
      · rw [hT] at hcount
        exact ⟨hcount, by simp, by simp⟩
      · rw [hT] at hcount hok
        rcases hok response rfl with h400 | ⟨h200, s, hs, hack, hmsg, hcal⟩
        · refine ⟨hcount, ?_, ?_⟩
          · intro h
            simp only at h
            omega
          · intro _
            exact Or.inl h400
        · refine ⟨hcount, ?_, ?_⟩
          · intro _
            exact ⟨ws, s, rfl, hs, hack, hmsg, hcal⟩
          · intro h
            exact absurd h200 h

/-- C12, at the stub environment, where every collaborator succeeds, for fifty
squats and twenty push-ups: status 200 after one acknowledged `announce`. -/
theorem handler_success_only_after_announce_witness :
    (handler stubEnv ⟨"POST", some "TBQ4FKXGUD7VQ3YQZ6IYAF36GD5PXGZVLGITMAA",
        some [⟨"squats", .num 50⟩, ⟨"pushups", .num 20⟩], some "en"⟩).1.status = 200 ∧
      ∃ ws s, some [(⟨"squats", .num 50⟩ : Workout), ⟨"pushups", .num 20⟩] = some ws ∧
        (handler stubEnv ⟨"POST", some "TBQ4FKXGUD7VQ3YQZ6IYAF36GD5PXGZVLGITMAA",
          some [⟨"squats", .num 50⟩, ⟨"pushups", .num 20⟩], some "en"⟩).2.filter isAnnounce
            = [Call.announce s] ∧
        stubEnv.announce s = none ∧
        (handler stubEnv ⟨"POST", some "TBQ4FKXGUD7VQ3YQZ6IYAF36GD5PXGZVLGITMAA",
          some [⟨"squats", .num 50⟩, ⟨"pushups", .num 20⟩], some "en"⟩).1.body.transactionMessage
            = some (generateTransactionMessage stubEnv (rewardLoop ws).workoutDetailsForPrompt
                (some "en")) ∧
        (handler stubEnv ⟨"POST", some "TBQ4FKXGUD7VQ3YQZ6IYAF36GD5PXGZVLGITMAA",
          some [⟨"squats", .num 50⟩, ⟨"pushups", .num 20⟩], some "en"⟩).1.body.estimatedCalories
            = some (rewardLoop ws).totalCalories := by
  have h200 : (handler stubEnv ⟨"POST", some "TBQ4FKXGUD7VQ3YQZ6IYAF36GD5PXGZVLGITMAA",
      some [⟨"squats", .num 50⟩, ⟨"pushups", .num 20⟩], some "en"⟩).1.status = 200 := by
    simp [handler, tryBlock, stubEnv, stringTruthy, rewardLoop, rewardStep, rewardInit,
      getSettings, WORKOUT_SETTINGS, List.lookup, repsRejected, JsVal.truthy, JsVal.le,
      JsVal.toNumber, JsVal.add, JsVal.mul, JsVal.floor]
    norm_num
  exact ⟨h200, (handler_success_only_after_announce stubEnv
    ⟨"POST", some "TBQ4FKXGUD7VQ3YQZ6IYAF36GD5PXGZVLGITMAA",
      some [⟨"squats", .num 50⟩, ⟨"pushups", .num 20⟩], some "en"⟩).2.1 h200⟩

/-! ## One floor per entry -/

theorem sum_floor_le_floor_sum (l : List ℚ) : (l.map fun x => ⌊x⌋).sum ≤ ⌊l.sum⌋ := by
  induction l with
  | nil => simp
  | cons a l ih =>
    simp only [List.map_cons, List.sum_cons]
    rw [Int.le_floor]
    have h1 : ((⌊a⌋ : ℤ) : ℚ) ≤ a := Int.floor_le a
    have h2 : (((l.map fun x => ⌊x⌋).sum : ℤ) : ℚ) ≤ l.sum :=
      le_trans (by exact_mod_cast ih) (Int.floor_le _)
    rw [Int.cast_add]
    linarith

/-! ## The summary text -/

theorem getSettings_names_of_catalog {key : String} (h : key ∈ catalogKinds) :
    ∃ nameEn nameJa m c, englishNameOf key = some nameEn ∧ nameEn ≠ "" ∧
      displayNameOf key = some nameJa ∧
      getSettings key = some ⟨some nameJa, some nameEn, m, c⟩ := by
  simp only [catalogKinds, List.mem_cons, List.mem_singleton, List.not_mem_nil, or_false] at h
  rcases h with h | h | h | h | h <;> subst h <;>
    simp [getSettings, WORKOUT_SETTINGS, List.lookup, displayNameOf, englishNameOf]

/-- The phrase built for a recorded entry of a catalog kind: the English name
when `lang` is `en`, the display name of the catalog otherwise. -/
theorem workoutPhrase_entryDetail (env : Env) (lang : Option String) (w : Workout)
    (hk : w.type ∈ catalogKinds) :
    workoutPhrase env lang (entryDetail w) =
      if isEn lang then
        nameToString (englishNameOf w.type) ++ " for " ++ repsToString env w.reps ++ " reps"
      else
        nameToString (displayNameOf w.type) ++ "を" ++ repsToString env w.reps ++ "回" := by
  obtain ⟨nameEn, nameJa, m, c, hen, hne, hja, hs⟩ := getSettings_names_of_catalog hk
  by_cases hl : isEn lang = true
  · simp [workoutPhrase, workoutName, entryDetail, hl, hs, hen, hne, nameToString]
  · simp [workoutPhrase, workoutName, entryDetail, hl, hja, nameToString]

/-- On a list none of whose kinds is read from `Object.prototype`, the summary
built from the recorded list is made of the phrases of the valid entries, in
input order, joined by the separator of the language. -/
theorem workoutSummary_of_reward (env : Env) (ws : List Workout) (lang : Option String)
    (h : ∀ w ∈ ws, isInheritedKey w.type = false) :
    (rewardLoop ws).workoutDetailsForPrompt = (ws.filter isValidEntry).map entryDetail ∧
      workoutSummary env (rewardLoop ws).workoutDetailsForPrompt lang =
        if isEn lang then
          ", ".intercalate ((ws.filter isValidEntry).map fun w =>
            nameToString (englishNameOf w.type) ++ " for " ++ repsToString env w.reps ++ " reps")
        else
          "、".intercalate ((ws.filter isValidEntry).map fun w =>
            nameToString (displayNameOf w.type) ++ "を" ++ repsToString env w.reps ++ "回") := by
  have hd : (rewardLoop ws).workoutDetailsForPrompt = (ws.filter isValidEntry).map entryDetail := by
    rw [rewardLoop_eq ws h]
  refine ⟨hd, ?_⟩
  have hmap : ∀ w ∈ ws.filter isValidEntry,
      workoutPhrase env lang (entryDetail w) =
        if isEn lang then
          nameToString (englishNameOf w.type) ++ " for " ++ repsToString env w.reps ++ " reps"
        else
          nameToString (displayNameOf w.type) ++ "を" ++ repsToString env w.reps ++ "回" := by
    intro w hw
    have hv : isValidEntry w = true := (List.mem_filter.mp hw).2
    have hk : w.type ∈ catalogKinds := by
      simp only [isValidEntry, Bool.and_eq_true, decide_eq_true_eq] at hv
      exact hv.1
    exact workoutPhrase_entryDetail env lang w hk
  rw [hd, workoutSummary, List.map_map]
  by_cases hl : isEn lang = true
  · simp only [hl, if_true]
    congr 1
    apply List.map_congr_left
    intro w hw
    have := hmap w hw
    simpa [hl] using this
  · simp only [hl, if_false, Bool.false_eq_true]
    congr 1
    apply List.map_congr_left
    intro w hw
    have := hmap w hw
    simpa [hl] using this

/-- The example of the specification: fifty squats and twenty push-ups with
`lang` set to `en`. -/
theorem workoutSummary_example (env : Env) :
    workoutSummary env
      (rewardLoop [⟨"squats", .num 50⟩, ⟨"pushups", .num 20⟩]).workoutDetailsForPrompt
      (some "en") = "Squats for 50 reps, Push-ups for 20 reps" := by
  have h : ∀ w ∈ [(⟨"squats", .num 50⟩ : Workout), ⟨"pushups", .num 20⟩],
      isInheritedKey w.type = false := by
    intro w hw
    simp only [List.mem_cons, List.mem_singleton, List.not_mem_nil, or_false] at hw
    rcases hw with hw | hw <;> subst hw <;> decide
  rw [(workoutSummary_of_reward env _ (some "en") h).2]
  simp [isEn, isValidEntry, catalogKinds, repsOf, englishNameOf, List.lookup, nameToString,
    repsToString, numberToString]
  decide

/-- C14, at the failing input. For twenty push-ups followed by two repetitions
of the kind `toString`, the only valid entry is the first one, but the total
passes the gate and the list handed to the message generator has two
elements, the second one named `toString`; with `lang` set to `en` the summary
built from it is `Push-ups for 20 reps, toString for 2 reps`. -/
theorem workoutSummary_inherited_kind (env : Env) :
    [(⟨"pushups", .num 20⟩ : Workout), ⟨"toString", .num 2⟩].filter isValidEntry
        = [⟨"pushups", .num 20⟩] ∧
      (rewardLoop [⟨"pushups", .num 20⟩, ⟨"toString", .num 2⟩]).totalTokenAmount.le (.num 0)
        = false ∧
      (rewardLoop [⟨"pushups", .num 20⟩, ⟨"toString", .num 2⟩]).workoutDetailsForPrompt
        = [⟨"pushups", some "腕立て伏せ", .num 20⟩, ⟨"toString", some "toString", .num 2⟩] ∧
      workoutSummary env
        (rewardLoop [⟨"pushups", .num 20⟩, ⟨"toString", .num 2⟩]).workoutDetailsForPrompt
        (some "en") = "Push-ups for 20 reps, toString for 2 reps" := by
  have hr : rewardLoop [⟨"pushups", .num 20⟩, ⟨"toString", .num 2⟩] =
      ⟨.nan, .nan, [⟨"pushups", some "腕立て伏せ", .num 20⟩,
        ⟨"toString", some "toString", .num 2⟩]⟩ := by
    simp [rewardLoop, rewardStep, rewardInit, getSettings, WORKOUT_SETTINGS, objectPrototype,
      List.lookup, repsRejected, JsVal.truthy, JsVal.le, JsVal.toNumber, JsVal.add, JsVal.mul,
      JsVal.floor]
    norm_num
  refine ⟨?_, ?_, ?_, ?_⟩
  · simp [isValidEntry, catalogKinds, repsOf]
  · rw [hr]
    rfl
  · rw [hr]
  · rw [hr]
    simp [workoutSummary, workoutPhrase, workoutName, isEn, getSettings, WORKOUT_SETTINGS,
      objectPrototype, List.lookup, nameToString, repsToString, numberToString]
    decide

/-! ## The level lookup -/

theorem levelLoop_nil (c i cur : ℕ) : levelLoop c [] i cur = cur := rfl

theorem levelLoop_cons_ge (c t : ℕ) (rest : List ℕ) (i cur : ℕ) (h : t ≤ c) :
    levelLoop c (t :: rest) i cur = levelLoop c rest (i + 1) i := by
  simp [levelLoop, h]

theorem levelLoop_cons_lt (c t : ℕ) (rest : List ℕ) (i cur : ℕ) (h : c < t) :
    levelLoop c (t :: rest) i cur = cur := by
  have : ¬ c ≥ t := by omega
  simp [levelLoop, this]

/-- The index left by the threshold loop, interval by interval. -/
theorem levelLoop_interval (c : ℕ) :
    (levelLoop c LEVEL_THRESHOLDS 0 0 = 0 ∧ c < 1000) ∨
      (levelLoop c LEVEL_THRESHOLDS 0 0 = 1 ∧ 1000 ≤ c ∧ c < 2500) ∨
      (levelLoop c LEVEL_THRESHOLDS 0 0 = 2 ∧ 2500 ≤ c ∧ c < 5000) ∨
      (levelLoop c LEVEL_THRESHOLDS 0 0 = 3 ∧ 5000 ≤ c ∧ c < 10000) ∨
      (levelLoop c LEVEL_THRESHOLDS 0 0 = 4 ∧ 10000 ≤ c ∧ c < 15000) ∨
      (levelLoop c LEVEL_THRESHOLDS 0 0 = 5 ∧ 15000 ≤ c ∧ c < 25000) ∨
      (levelLoop c LEVEL_THRESHOLDS 0 0 = 6 ∧ 25000 ≤ c ∧ c < 37500) ∨
      (levelLoop c LEVEL_THRESHOLDS 0 0 = 7 ∧ 37500 ≤ c ∧ c < 50000) ∨
      (levelLoop c LEVEL_THRESHOLDS 0 0 = 8 ∧ 50000 ≤ c ∧ c < 75000) ∨
      (levelLoop c LEVEL_THRESHOLDS 0 0 = 9 ∧ 75000 ≤ c ∧ c < 100000) ∨
      (levelLoop c LEVEL_THRESHOLDS 0 0 = 10 ∧ 100000 ≤ c) := by
  unfold LEVEL_THRESHOLDS
  by_cases h0 : c < 1000
  · left
    refine ⟨?_, by omega⟩
    simp (disch := omega) only [levelLoop_cons_ge, levelLoop_cons_lt]
  by_cases h1 : c < 2500
  · right; left
    refine ⟨?_, by omega⟩
    simp (disch := omega) only [levelLoop_cons_ge, levelLoop_cons_lt]
  by_cases h2 : c < 5000
  · right; right; left
    refine ⟨?_, by omega⟩
    simp (disch := omega) only [levelLoop_cons_ge, levelLoop_cons_lt]
  by_cases h3 : c < 10000
  · right; right; right; left
    refine ⟨?_, by omega⟩
    simp (disch := omega) only [levelLoop_cons_ge, levelLoop_cons_lt]
  by_cases h4 : c < 15000
  · right; right; right; right; left
    refine ⟨?_, by omega⟩
    simp (disch := omega) only [levelLoop_cons_ge, levelLoop_cons_lt]
  by_cases h5 : c < 25000
  · right; right; right; right; right; left
    refine ⟨?_, by omega⟩
    simp (disch := omega) only [levelLoop_cons_ge, levelLoop_cons_lt]
  by_cases h6 : c < 37500
  · right; right; right; right; right; right; left
    refine ⟨?_, by omega⟩
    simp (disch := omega) only [levelLoop_cons_ge, levelLoop_cons_lt]
  by_cases h7 : c < 50000
  · right; right; right; right; right; right; right; left
    refine ⟨?_, by omega⟩
    simp (disch := omega) only [levelLoop_cons_ge, levelLoop_cons_lt]
  by_cases h8 : c < 75000
  · right; right; right; right; right; right; right; right; left
    refine ⟨?_, by omega⟩
    simp (disch := omega) only [levelLoop_cons_ge, levelLoop_cons_lt]
  by_cases h9 : c < 100000
  · right; right; right; right; right; right; right; right; right; left
    refine ⟨?_, by omega⟩
    simp (disch := omega) only [levelLoop_cons_ge, levelLoop_cons_lt]
  · right; right; right; right; right; right; right; right; right; right
    refine ⟨?_, by omega⟩
    simp (disch := omega) only [levelLoop_cons_ge, levelLoop_cons_lt, levelLoop_nil]

/-- The index left by the threshold loop is at most 10, its threshold is
reached by the count, and no threshold of a later index is. -/
theorem levelLoop_char (c : ℕ) :
    levelLoop c LEVEL_THRESHOLDS 0 0 ≤ 10 ∧
      (∃ t, LEVEL_THRESHOLDS[levelLoop c LEVEL_THRESHOLDS 0 0]? = some t ∧ t ≤ c) ∧
      ∀ i t, LEVEL_THRESHOLDS[i]? = some t → t ≤ c → i ≤ levelLoop c LEVEL_THRESHOLDS 0 0 := by
  have hlen : ∀ i t, LEVEL_THRESHOLDS[i]? = some t → i < 11 := by
    intro i t hi
    have := (List.getElem?_eq_some.mp hi).1
    simpa [LEVEL_THRESHOLDS] using this
  rcases levelLoop_interval c with ⟨hL, hc⟩ | ⟨hL, hc⟩ | ⟨hL, hc⟩ | ⟨hL, hc⟩ | ⟨hL, hc⟩ | ⟨hL, hc⟩ | ⟨hL, hc⟩ | ⟨hL, hc⟩ | ⟨hL, hc⟩ | ⟨hL, hc⟩ | ⟨hL, hc⟩
  all_goals
    rw [hL]
    refine ⟨by omega, ?_, ?_⟩
    · simp [LEVEL_THRESHOLDS] <;> omega
    intro i t hi ht
    by_contra hcon
    have hi11 := hlen i t hi
    simp only [LEVEL_THRESHOLDS] at hi
    interval_cases i <;> simp at hi <;> omega

/-- C15. For every non-negative integer token count `c`, the level index left
by the threshold loop, the same in `getAndDisplayTokenBalance` and in
`shareOnSns`, is the largest index `i` in 0..10 with `LEVEL_THRESHOLDS[i] ≤ c`:
it lies in 0..10, it is a valid index into `LEVEL_NAME_KEYS`, its threshold is
reached by `c`, every index whose threshold is reached by `c` is below or equal
to it, it is non-decreasing in `c`, and the background index derived from it
lies in 0..9. -/
theorem level_index_spec (c : ℕ) :
    shareLevelIndex c = balanceLevelIndex c ∧
      balanceLevelIndex c ≤ 10 ∧
      balanceLevelIndex c < LEVEL_NAME_KEYS.length ∧
      (∃ t, LEVEL_THRESHOLDS[balanceLevelIndex c]? = some t ∧ t ≤ c) ∧
      (∀ i t, LEVEL_THRESHOLDS[i]? = some t → t ≤ c → i ≤ balanceLevelIndex c) ∧
      (∀ c', c ≤ c' → balanceLevelIndex c ≤ balanceLevelIndex c') ∧
      backgroundIndex (balanceLevelIndex c) ≤ 9 := by
  obtain ⟨h10, ⟨t, ht, htc⟩, hmax⟩ := levelLoop_char c
  refine ⟨rfl, h10, ?_, ⟨t, ht, htc⟩, hmax, ?_, ?_⟩
  · have hlen : LEVEL_NAME_KEYS.length = 11 := rfl
    rw [hlen]
    exact Nat.lt_succ_of_le h10
  · intro c' hcc
    exact (levelLoop_char c').2.2 _ t ht (le_trans htc hcc)
  · exact Nat.min_le_right _ _

/-- C15, at the counts 12345 and 100000: levels 4 and 10, backgrounds 4 and 9. -/
theorem level_index_spec_witness :
    12345 ≤ 100000 ∧ balanceLevelIndex 12345 ≤ balanceLevelIndex 100000 ∧
      balanceLevelIndex 12345 = 4 ∧ balanceLevelIndex 100000 = 10 ∧
      backgroundIndex (balanceLevelIndex 12345) = 4 ∧
      backgroundIndex (balanceLevelIndex 100000) = 9 :=
  ⟨by decide, (level_index_spec 12345).2.2.2.2.2.1 100000 (by decide), by decide, by decide,
    by decide, by decide⟩

/-! ## Rounding to binary64 -/

theorem roundHalfEven_cases (t : ℚ) : roundHalfEven t = ⌊t⌋ ∨
    (roundHalfEven t = ⌊t⌋ + 1 ∧ 1 / 2 ≤ t - ⌊t⌋) := by
  unfold roundHalfEven
  by_cases h1 : t - ⌊t⌋ < 1 / 2
  · left
    rw [if_pos h1]
  · rw [if_neg h1]
    have h1' : 1 / 2 ≤ t - ⌊t⌋ := not_lt.mp h1
    by_cases h2 : 1 / 2 < t - ⌊t⌋
    · right
      rw [if_pos h2]
      exact ⟨rfl, h1'⟩
    · rw [if_neg h2]
      by_cases h3 : ⌊t⌋ % 2 = 0
      · left
        rw [if_pos h3]
      · right
        rw [if_neg h3]
        exact ⟨rfl, h1'⟩

theorem floor_le_roundHalfEven (t : ℚ) : ⌊t⌋ ≤ roundHalfEven t := by
  rcases roundHalfEven_cases t with h | ⟨h, _⟩ <;> rw [h]
  omega

theorem roundHalfEven_le_add_half (t : ℚ) : (roundHalfEven t : ℚ) ≤ t + 1 / 2 := by
  rcases roundHalfEven_cases t with h | ⟨h, h2⟩ <;> rw [h]
  · have := Int.floor_le t
    linarith
  · push_cast
    linarith

theorem roundHalfEven_le_of_le_int (t : ℚ) (K : ℤ) (h : t ≤ K) : roundHalfEven t ≤ K := by
  rcases roundHalfEven_cases t with h1 | ⟨h1, h2⟩ <;> rw [h1]
  · have : ⌊t⌋ ≤ ⌊(K : ℚ)⌋ := Int.floor_mono h
    simpa using this
  · have hlt : (⌊t⌋ : ℚ) < K := by linarith
    have : ⌊t⌋ < K := by exact_mod_cast hlt
    omega

theorem roundHalfEven_intCast (K : ℤ) : roundHalfEven (K : ℚ) = K := by
  rcases roundHalfEven_cases (K : ℚ) with h | ⟨_, h2⟩
  · simpa using h
  · simp at h2
    norm_num at h2

theorem roundHalfEven_sub_small (K : ℤ) (δ : ℚ) (h0 : 0 < δ) (h1 : δ < 1 / 2) :
    roundHalfEven ((K : ℚ) - δ) = K := by
  have hfl : ⌊(K : ℚ) - δ⌋ = K - 1 := by
    rw [Int.floor_eq_iff]
    push_cast
    constructor <;> linarith
  unfold roundHalfEven
  rw [hfl]
  have hnot : ¬ ((K : ℚ) - δ - ((K - 1 : ℤ) : ℚ) < 1 / 2) := by
    push_cast
    linarith
  have hgt : 1 / 2 < (K : ℚ) - δ - ((K - 1 : ℤ) : ℚ) := by
    push_cast
    linarith
  rw [if_neg hnot, if_pos hgt]
  ring

theorem exponent_eq (x : ℚ) (e : ℤ) (hlo : (2 : ℚ) ^ e ≤ |x|) (hhi : |x| < (2 : ℚ) ^ (e + 1))
    (he : -1022 ≤ e) : exponent x = e := by
  have hpos : 0 < |x| := lt_of_lt_of_le (zpow_pos (by norm_num) e) hlo
  have h1 : e ≤ Int.log 2 |x| := by
    rw [← Int.zpow_le_iff_le_log (by norm_num) hpos]
    simpa using hlo
  have h2 : Int.log 2 |x| < e + 1 := by
    rw [← Int.lt_zpow_iff_log_lt (by norm_num) hpos]
    simpa using hhi
  unfold exponent
  omega

/-- Rounding of a positive number below `2 ^ 53`, in the binade `e`. -/
theorem round64_pos (x : ℚ) (e : ℕ) (he : e ≤ 52) (hlo : (2 : ℚ) ^ e ≤ x)
    (hhi : x < (2 : ℚ) ^ (e + 1)) :
    round64 x = .fin (roundHalfEven (x * 2 ^ (52 - e)) / 2 ^ (52 - e)) := by
  have hP : (0 : ℚ) < 2 ^ e := pow_pos (by norm_num) e
  have hx : 0 < x := lt_of_lt_of_le hP hlo
  have habs : |x| = x := abs_of_pos hx
  have hexp : exponent x = (e : ℤ) := by
    apply exponent_eq
    · rw [habs, zpow_natCast]
      exact hlo
    · rw [habs]
      have : ((e : ℤ) + 1) = ((e + 1 : ℕ) : ℤ) := by push_cast; ring
      rw [this, zpow_natCast]
      exact hhi
    · omega
  have hQ : (0 : ℚ) < 2 ^ (52 - e) := pow_pos (by norm_num) _
  have hq : (2 : ℚ) ^ ((e : ℤ) - 52) = ((2 : ℚ) ^ (52 - e))⁻¹ := by
    have : ((e : ℤ) - 52) = -((52 - e : ℕ) : ℤ) := by omega
    rw [this, zpow_neg, zpow_natCast]
  have hdiv : x / ((2 : ℚ) ^ (52 - e))⁻¹ = x * 2 ^ (52 - e) := by
    rw [div_inv_eq_mul]
  have hy0 : (0 : ℚ) ≤ roundHalfEven (x * 2 ^ (52 - e)) := by
    have h1 : (0 : ℤ) ≤ ⌊x * 2 ^ (52 - e)⌋ := Int.floor_nonneg.mpr (le_of_lt (mul_pos hx hQ))
    have h2 := floor_le_roundHalfEven (x * 2 ^ (52 - e))
    exact_mod_cast le_trans h1 h2
  have hyle : (roundHalfEven (x * 2 ^ (52 - e)) : ℚ) ≤ 2 ^ 53 := by
    have hle : x * 2 ^ (52 - e) ≤ ((2 ^ 53 : ℤ) : ℚ) := by
      have h1 : x * 2 ^ (52 - e) ≤ 2 ^ (e + 1) * 2 ^ (52 - e) :=
        mul_le_mul_of_nonneg_right (le_of_lt hhi) (le_of_lt hQ)
      have h2 : (2 : ℚ) ^ (e + 1) * 2 ^ (52 - e) = 2 ^ 53 := by
        rw [← pow_add]
        congr 1
        omega
      rw [h2] at h1
      push_cast
      exact h1
    have := roundHalfEven_le_of_le_int _ _ hle
    exact_mod_cast this
  have hno : ¬ ((2 : ℚ) ^ 1024 ≤
      |(roundHalfEven (x * 2 ^ (52 - e)) : ℚ) * ((2 : ℚ) ^ (52 - e))⁻¹|) := by
    rw [abs_of_nonneg (mul_nonneg hy0 (le_of_lt (inv_pos.mpr hQ)))]
    have h1 : (roundHalfEven (x * 2 ^ (52 - e)) : ℚ) * ((2 : ℚ) ^ (52 - e))⁻¹ ≤ 2 ^ 53 := by
      have hinv : ((2 : ℚ) ^ (52 - e))⁻¹ ≤ 1 :=
        inv_le_one_of_one_le₀ (one_le_pow₀ (by norm_num))
      calc (roundHalfEven (x * 2 ^ (52 - e)) : ℚ) * ((2 : ℚ) ^ (52 - e))⁻¹
          ≤ (roundHalfEven (x * 2 ^ (52 - e)) : ℚ) * 1 :=
            mul_le_mul_of_nonneg_left hinv hy0
        _ ≤ 2 ^ 53 := by simpa using hyle
    have h2 : (2 : ℚ) ^ 53 < 2 ^ 1024 := by
      apply pow_lt_pow_right₀ <;> norm_num
    linarith
  unfold round64
  rw [if_neg (ne_of_gt hx)]
  simp only [hexp, hq, hdiv]
  rw [if_neg hno, div_eq_mul_inv]

theorem exists_binade (x : ℚ) (N : ℕ) (h1 : 1 ≤ x) (h2 : x < 2 ^ N) :
    ∃ e : ℕ, e < N ∧ (2 : ℚ) ^ e ≤ x ∧ x < 2 ^ (e + 1) := by
  have hx0 : 0 ≤ x := le_trans zero_le_one h1
  have hfl : 1 ≤ ⌊x⌋₊ := Nat.le_floor (by simpa using h1)
  refine ⟨Nat.log 2 ⌊x⌋₊, ?_, ?_, ?_⟩
  · have hlo : 2 ^ Nat.log 2 ⌊x⌋₊ ≤ ⌊x⌋₊ := Nat.pow_log_le_self 2 (by omega)
    have hlt : ((2 ^ Nat.log 2 ⌊x⌋₊ : ℕ) : ℚ) < ((2 ^ N : ℕ) : ℚ) := by
      have h3 : ((2 ^ Nat.log 2 ⌊x⌋₊ : ℕ) : ℚ) ≤ (⌊x⌋₊ : ℚ) := by exact_mod_cast hlo
      have h4 : (⌊x⌋₊ : ℚ) ≤ x := Nat.floor_le hx0
      have h5 : x < ((2 ^ N : ℕ) : ℚ) := by push_cast; exact h2
      linarith
    have hlt' : 2 ^ Nat.log 2 ⌊x⌋₊ < 2 ^ N := by exact_mod_cast hlt
    exact (Nat.pow_lt_pow_iff_right (by norm_num)).mp hlt'
  · have hlo : 2 ^ Nat.log 2 ⌊x⌋₊ ≤ ⌊x⌋₊ := Nat.pow_log_le_self 2 (by omega)
    have h3 : ((2 ^ Nat.log 2 ⌊x⌋₊ : ℕ) : ℚ) ≤ (⌊x⌋₊ : ℚ) := by exact_mod_cast hlo
    have h4 : (⌊x⌋₊ : ℚ) ≤ x := Nat.floor_le hx0
    push_cast at h3
    linarith
  · have hhi : ⌊x⌋₊ < 2 ^ (Nat.log 2 ⌊x⌋₊ + 1) := Nat.lt_pow_succ_log_self (by norm_num) _
    have h3 : ⌊x⌋₊ + 1 ≤ 2 ^ (Nat.log 2 ⌊x⌋₊ + 1) := hhi
    have h4 : ((⌊x⌋₊ + 1 : ℕ) : ℚ) ≤ ((2 ^ (Nat.log 2 ⌊x⌋₊ + 1) : ℕ) : ℚ) := by exact_mod_cast h3
    have h5 : x < (⌊x⌋₊ : ℚ) + 1 := Nat.lt_floor_add_one x
    push_cast at h4
    linarith

/-- A positive number below `2 ^ 53` that is an integer multiple of the
spacing of its binade is a double: rounding leaves it unchanged. -/
theorem round64_exact (x : ℚ) (e : ℕ) (he : e ≤ 52) (hlo : (2 : ℚ) ^ e ≤ x)
    (hhi : x < (2 : ℚ) ^ (e + 1)) (K : ℤ) (hK : x * 2 ^ (52 - e) = K) :
    round64 x = .fin x := by
  rw [round64_pos x e he hlo hhi, hK, roundHalfEven_intCast, ← hK]
  have hQ : (2 : ℚ) ^ (52 - e) ≠ 0 := pow_ne_zero _ (by norm_num)
  rw [mul_div_assoc, div_self hQ, mul_one]

/-- Every integer from 0 to `2 ^ 53 - 1` is a double. -/
theorem round64_int (n : ℤ) (h0 : 0 ≤ n) (h1 : n < 2 ^ 53) : round64 (n : ℚ) = .fin n := by
  rcases eq_or_lt_of_le h0 with h | h
  · rw [← h]
    simp [round64]
  · have hx1 : (1 : ℚ) ≤ n := by exact_mod_cast h
    have hx2 : (n : ℚ) < 2 ^ 53 := by exact_mod_cast h1
    obtain ⟨e, he, hlo, hhi⟩ := exists_binade (n : ℚ) 53 hx1 hx2
    refine round64_exact (n : ℚ) e (by omega) hlo hhi (n * 2 ^ (52 - e)) ?_
    push_cast
    ring

/-- Three halves of an integer from 1 to `2 ^ 50` is a double. -/
theorem round64_three_halves (n : ℤ) (h0 : 0 < n) (h1 : n ≤ 2 ^ 50) :
    round64 ((n : ℚ) * (3 / 2)) = .fin ((n : ℚ) * (3 / 2)) := by
  have hn1 : (1 : ℚ) ≤ n := by exact_mod_cast h0
  have hn2 : (n : ℚ) ≤ 2 ^ 50 := by exact_mod_cast h1
  have hx1 : (1 : ℚ) ≤ (n : ℚ) * (3 / 2) := by linarith
  have hx2 : (n : ℚ) * (3 / 2) < 2 ^ 51 := by
    have : (2 : ℚ) ^ 51 = 2 * 2 ^ 50 := by norm_num
    linarith
  obtain ⟨e, he, hlo, hhi⟩ := exists_binade _ 51 hx1 hx2
  refine round64_exact _ e (by omega) hlo hhi (n * 3 * 2 ^ (51 - e)) ?_
  have hpow : (2 : ℚ) ^ (52 - e) = 2 * 2 ^ (51 - e) := by
    rw [← pow_succ']
    congr 1
    omega
  rw [hpow]
  push_cast
  ring

/-- The double written `1.2`. -/
theorem round64_six_fifths :
    round64 (6 / 5) = .fin (5404319552844595 / 4503599627370496) := by
  rw [round64_pos (6 / 5) 0 (by norm_num) (by norm_num) (by norm_num)]
  have h : roundHalfEven ((6 / 5 : ℚ) * 2 ^ (52 - 0)) = 5404319552844595 := by
    unfold roundHalfEven
    norm_num
  rw [h]
  norm_num

/-- The product of an integer from 1 to `2 ^ 50` with the double written `1.2`:
after rounding, its floor is the floor of the exact product with 6/5. -/
theorem floor_round64_mul_six_fifths (n : ℤ) (h0 : 0 < n) (h1 : n ≤ 2 ^ 50) :
    ∃ y : ℚ, round64 ((n : ℚ) * (5404319552844595 / 4503599627370496)) = .fin y ∧
      ⌊y⌋ = ⌊(n : ℚ) * (6 / 5)⌋ := by
  have hn1 : (1 : ℚ) ≤ n := by exact_mod_cast h0
  have hn2 : (n : ℚ) ≤ 2 ^ 50 := by exact_mod_cast h1
  set x : ℚ := (n : ℚ) * (5404319552844595 / 4503599627370496) with hx
  have hxeq : x = (n : ℚ) * (6 / 5) - (n : ℚ) / (5 * 2 ^ 52) := by
    rw [hx]
    norm_num
    ring
  have hx1 : (1 : ℚ) ≤ x := by
    rw [hx]
    linarith
  have hx2 : x < 2 ^ 51 := by
    rw [hx]
    have : (2 : ℚ) ^ 51 = 2 * 2 ^ 50 := by norm_num
    linarith
  obtain ⟨e, he, hlo, hhi⟩ := exists_binade x 51 hx1 hx2
  have he52 : e ≤ 52 := by omega
  refine ⟨roundHalfEven (x * 2 ^ (52 - e)) / 2 ^ (52 - e), round64_pos x e he52 hlo hhi, ?_⟩
  have hP : (0 : ℚ) < 2 ^ e := pow_pos (by norm_num) e
  have hQ : (0 : ℚ) < 2 ^ (52 - e) := pow_pos (by norm_num) _
  have hPQ : (2 : ℚ) ^ e * 2 ^ (52 - e) = 2 ^ 52 := by
    rw [← pow_add]
    congr 1
    omega
  have hQ4 : (4 : ℚ) ≤ 2 ^ (52 - e) := by
    have h2 : (2 : ℚ) ^ 2 ≤ 2 ^ (52 - e) := pow_le_pow_right₀ (by norm_num) (by omega)
    norm_num at h2
    exact h2
  obtain ⟨j, r, hnjr, hr0, hr5⟩ : ∃ j r : ℤ, n = 5 * j + r ∧ 0 ≤ r ∧ r < 5 :=
    ⟨n / 5, n % 5, (Int.ediv_add_emod n 5).symm, Int.emod_nonneg n (by norm_num),
      Int.emod_lt_of_pos n (by norm_num)⟩
  have hncast : (n : ℚ) = 5 * j + r := by exact_mod_cast hnjr
  have hfloor : ⌊(n : ℚ) * (6 / 5)⌋ = 6 * j + r := by
    rw [Int.floor_eq_iff, hncast]
    have hr0' : (0 : ℚ) ≤ r := by exact_mod_cast hr0
    have hr5' : (r : ℚ) ≤ 4 := by
      have : r ≤ 4 := by omega
      exact_mod_cast this
    push_cast
    constructor <;> linarith
  rw [hfloor]
  by_cases hr : r = 0
  · -- a multiple of five: the product rounds to the integer `6 * j`
    subst hr
    have hj : 0 < j := by omega
    have hjq : (0 : ℚ) < j := by exact_mod_cast hj
    have hn5 : (n : ℚ) = 5 * j := by simpa using hncast
    have hxj : x = 6 * j - j / 2 ^ 52 := by
      rw [hxeq, hn5]
      field_simp
      ring
    have hsmall : (j : ℚ) / 2 ^ 52 ≤ j := by
      apply div_le_self (le_of_lt hjq)
      exact one_le_pow₀ (by norm_num)
    have hδ : (j : ℚ) / 2 ^ e < 1 / 2 := by
      rw [div_lt_iff₀ hP]
      have : x < 2 * 2 ^ e := by
        rw [pow_succ] at hhi
        linarith
      linarith
    have hδ0 : (0 : ℚ) < (j : ℚ) / 2 ^ e := div_pos hjq hP
    have hscaled : x * 2 ^ (52 - e) =
        ((6 * j * 2 ^ (52 - e) : ℤ) : ℚ) - (j : ℚ) / 2 ^ e := by
      rw [hxj]
      push_cast
      have : (j : ℚ) / 2 ^ 52 * 2 ^ (52 - e) = (j : ℚ) / 2 ^ e := by
        rw [← hPQ]
        field_simp
        ring
      rw [sub_mul, this]
    rw [hscaled, roundHalfEven_sub_small _ _ hδ0 hδ]
    have : ((6 * j * 2 ^ (52 - e) : ℤ) : ℚ) / 2 ^ (52 - e) = ((6 * j : ℤ) : ℚ) := by
      push_cast
      field_simp
    rw [this, Int.floor_intCast]
    ring
  · -- not a multiple of five: the product stays strictly between two integers
    have hr1 : (1 : ℚ) ≤ r := by
      have : 1 ≤ r := by omega
      exact_mod_cast this
    have hr4 : (r : ℚ) ≤ 4 := by
      have : r ≤ 4 := by omega
      exact_mod_cast this
    have herr0 : (0 : ℚ) ≤ (n : ℚ) / (5 * 2 ^ 52) := by positivity
    have herr : (n : ℚ) / (5 * 2 ^ 52) ≤ 1 / 20 := by
      rw [div_le_iff₀ (by positivity)]
      have : (2 : ℚ) ^ 52 = 4 * 2 ^ 50 := by norm_num
      linarith
    have hxlo : ((6 * j + r : ℤ) : ℚ) ≤ x := by
      rw [hxeq, hncast]
      push_cast
      rw [hncast] at herr
      linarith
    have hxhi : x ≤ ((6 * j + r : ℤ) : ℚ) + 4 / 5 := by
      rw [hxeq, hncast]
      push_cast
      rw [hncast] at herr0
      linarith
    rw [Int.floor_eq_iff]
    constructor
    · rw [le_div_iff₀ hQ]
      have hle : (((6 * j + r) * 2 ^ (52 - e) : ℤ) : ℚ) ≤ x * 2 ^ (52 - e) := by
        push_cast
        have := mul_le_mul_of_nonneg_right hxlo (le_of_lt hQ)
        push_cast at this
        exact this
      have h1 : (6 * j + r) * 2 ^ (52 - e) ≤ ⌊x * 2 ^ (52 - e)⌋ := Int.le_floor.mpr hle
      have h2 := floor_le_roundHalfEven (x * 2 ^ (52 - e))
      have h3 : ((6 * j + r) * 2 ^ (52 - e) : ℤ) ≤ roundHalfEven (x * 2 ^ (52 - e)) :=
        le_trans h1 h2
      have h4 : (((6 * j + r) * 2 ^ (52 - e) : ℤ) : ℚ) ≤
          (roundHalfEven (x * 2 ^ (52 - e)) : ℚ) := by exact_mod_cast h3
      push_cast at h4 ⊢
      exact h4
    · rw [div_lt_iff₀ hQ]
      have h1 := roundHalfEven_le_add_half (x * 2 ^ (52 - e))
      have h2 : x * 2 ^ (52 - e) ≤ (((6 * j + r : ℤ) : ℚ) + 4 / 5) * 2 ^ (52 - e) :=
        mul_le_mul_of_nonneg_right hxhi (le_of_lt hQ)
      nlinarith

/-! ## The token total in double precision -/

theorem roundHalfEven_nonpos (t : ℚ) (h : t ≤ 0) : roundHalfEven t ≤ 0 :=
  roundHalfEven_le_of_le_int t 0 (by simpa using h)

/-- A number of repetitions that is zero or negative is rejected by the guard
after conversion to a double. -/
theorem guard64_nonpos (q : ℚ) (h : q ≤ 0) :
    (!truthy64 (round64 q) || le64 (round64 q) (.fin 0)) = true := by
  unfold round64
  by_cases hq : q = 0
  · simp [hq, truthy64]
  · rw [if_neg hq]
    have hneg : q < 0 := lt_of_le_of_ne h hq
    have hqu : (0 : ℚ) < 2 ^ (exponent q - 52) := zpow_pos (by norm_num) _
    have hle : q / 2 ^ (exponent q - 52) ≤ 0 := div_nonpos_of_nonpos_of_nonneg h (le_of_lt hqu)
    have hr : (roundHalfEven (q / 2 ^ (exponent q - 52)) : ℚ) ≤ 0 := by
      exact_mod_cast roundHalfEven_nonpos _ hle
    have hy : (roundHalfEven (q / 2 ^ (exponent q - 52)) : ℚ) * 2 ^ (exponent q - 52) ≤ 0 :=
      mul_nonpos_of_nonpos_of_nonneg hr (le_of_lt hqu)
    simp only []
    split
    · simp [le64, hneg]
    · simp [le64, hy]

/-- The product of an integer from 1 to `2 ^ 50` with the token multiplier of a
catalog kind, rounded to a double, has the floor of the exact product. -/
theorem mul64_catalog {kind : String} (hk : kind ∈ catalogKinds) (n : ℤ) (h0 : 0 < n)
    (h1 : n ≤ 2 ^ 50) :
    ∃ y : ℚ, mul64 (.fin n) (round64 (tokenMultiplierOf kind)) = .fin y ∧
      ⌊y⌋ = ⌊(n : ℚ) * tokenMultiplierOf kind⌋ := by
  have hone : round64 1 = .fin 1 := by
    have := round64_int 1 (by norm_num) (by norm_num)
    simpa using this
  have hhalf : round64 (3 / 2) = .fin (3 / 2) := by
    have := round64_three_halves 1 (by norm_num) (by norm_num)
    simpa using this
  have hn53 : n < 2 ^ 53 := lt_of_le_of_lt h1 (by norm_num)
  have hunit : ∃ y : ℚ, mul64 (.fin n) (round64 1) = .fin y ∧ ⌊y⌋ = ⌊(n : ℚ) * 1⌋ := by
    refine ⟨n, ?_, by simp⟩
    rw [hone]
    simp only [mul64, mul_one]
    exact round64_int n (le_of_lt h0) hn53
  have hsix : ∃ y : ℚ, mul64 (.fin n) (round64 (6 / 5)) = .fin y ∧
      ⌊y⌋ = ⌊(n : ℚ) * (6 / 5)⌋ := by
    obtain ⟨y, hy, hfl⟩ := floor_round64_mul_six_fifths n h0 h1
    refine ⟨y, ?_, hfl⟩
    rw [round64_six_fifths]
    simpa only [mul64] using hy
  have hthree : ∃ y : ℚ, mul64 (.fin n) (round64 (3 / 2)) = .fin y ∧
      ⌊y⌋ = ⌊(n : ℚ) * (3 / 2)⌋ := by
    refine ⟨(n : ℚ) * (3 / 2), ?_, rfl⟩
    rw [hhalf]
    simp only [mul64]
    exact round64_three_halves n h0 h1
  simp only [catalogKinds, List.mem_cons, List.mem_singleton, List.not_mem_nil, or_false] at hk
  rcases hk with h | h | h | h | h <;> subst h
  · have : tokenMultiplierOf "crunches" = 1 := by
      simp [tokenMultiplierOf, List.lookup]
      norm_num
    rw [this]
    exact hunit
  · have : tokenMultiplierOf "pushups" = 6 / 5 := by
      simp [tokenMultiplierOf, List.lookup]
      norm_num
    rw [this]
    exact hsix
  · have : tokenMultiplierOf "squats" = 3 / 2 := by
      simp [tokenMultiplierOf, List.lookup]
      norm_num
    rw [this]
    exact hthree
  · have : tokenMultiplierOf "back_extensions" = 6 / 5 := by
      simp [tokenMultiplierOf, List.lookup]
      norm_num
    rw [this]
    exact hsix
  · have : tokenMultiplierOf "general_workout" = 1 := by
      simp [tokenMultiplierOf, List.lookup]
      norm_num
    rw [this]
    exact hunit

theorem entryTokens_nonneg_of_valid (w : Workout) (hv : isValidEntry w = true) :
    0 ≤ entryTokens w := by
  simp only [isValidEntry, Bool.and_eq_true, decide_eq_true_eq] at hv
  have hm : 0 ≤ tokenMultiplierOf w.type := le_trans zero_le_one (one_le_tokenMultiplierOf hv.1)
  exact Int.floor_nonneg.mpr (mul_nonneg (le_of_lt hv.2) hm)

theorem specTokens_nonneg (ws : List Workout) : 0 ≤ specTokens ws := by
  induction ws with
  | nil => simp [specTokens]
  | cons w ws ih =>
    rw [specTokens_cons]
    by_cases hv : isValidEntry w = true
    · have := entryTokens_nonneg_of_valid w hv
      rw [if_pos hv]
      omega
    · rw [if_neg hv]
      omega

/-- One iteration in double precision, on an entry whose kind is not read from
`Object.prototype` and whose repetitions, when it is valid, are an integer
from 1 to `2 ^ 50`: an integer total below `2 ^ 53` stays exact. -/
theorem rewardStep64_tokens (acc : Reward64) (w : Workout) (a : ℤ)
    (hacc : acc.totalTokenAmount = .fin a) (ha : 0 ≤ a)
    (hin : isInheritedKey w.type = false)
    (hint : isValidEntry w = true → ∃ n : ℤ, 0 < n ∧ n ≤ 2 ^ 50 ∧ w.reps = .num n)
    (hb : a + (if isValidEntry w then entryTokens w else 0) < 2 ^ 53) :
    (rewardStep64 acc w).totalTokenAmount =
      .fin ((a + (if isValidEntry w then entryTokens w else 0) : ℤ) : ℚ) := by
  by_cases hk : w.type ∈ catalogKinds
  · obtain ⟨nameEn, hs⟩ := getSettings_of_catalog hk
    by_cases hv : isValidEntry w = true
    · obtain ⟨n, hn0, hn50, hr⟩ := hint hv
      have hn53 : n < 2 ^ 53 := lt_of_le_of_lt hn50 (by norm_num)
      have hreps : toDouble w.reps = .fin n := by
        rw [hr]
        exact round64_int n (le_of_lt hn0) hn53
      have hnq : (n : ℚ) ≠ 0 := by exact_mod_cast (ne_of_gt hn0)
      have hnle : ¬ ((n : ℚ) ≤ 0) := by
        have : (0 : ℚ) < n := by exact_mod_cast hn0
        exact not_le.mpr this
      obtain ⟨y, hy, hfl⟩ := mul64_catalog hk n hn0 hn50
      have hent : entryTokens w = ⌊y⌋ := by
        rw [hfl]
        simp [entryTokens, hr, repsOf]
      rw [if_pos hv] at hb ⊢
      have hc0 : 0 ≤ ⌊y⌋ := by
        rw [← hent]
        exact entryTokens_nonneg_of_valid w hv
      rw [hent] at hb ⊢
      have hsum : round64 ((a : ℚ) + ((⌊y⌋ : ℤ) : ℚ)) = .fin ((a + ⌊y⌋ : ℤ) : ℚ) := by
        have := round64_int (a + ⌊y⌋) (by omega) hb
        rw [← this]
        push_cast
        rfl
      have hguard : (!truthy64 (Double.fin n) || le64 (Double.fin n) (.fin 0)) = false := by
        simp [truthy64, le64, hnq, hnle]
      have htot : add64 acc.totalTokenAmount (floor64 (mul64 (Double.fin n)
          (toDouble (JsVal.num (tokenMultiplierOf w.type))))) = .fin ((a + ⌊y⌋ : ℤ) : ℚ) := by
        rw [hacc]
        show add64 (.fin a) (floor64 (mul64 (.fin n) (round64 (tokenMultiplierOf w.type)))) = _
        rw [hy]
        exact hsum
      unfold rewardStep64
      simp only [hs, hreps, hguard, Bool.false_eq_true, if_false]
      exact htot
    · have hrej : (!truthy64 (toDouble w.reps) || le64 (toDouble w.reps) (.fin 0)) = true := by
        have hnot : ¬ (0 < repsOf w.reps) := by
          intro hpos
          apply hv
          simp [isValidEntry, hk, hpos]
        cases hr : w.reps with
        | undefined => simp [toDouble, truthy64]
        | nan => simp [toDouble, truthy64]
        | num q =>
          have hq : q ≤ 0 := by
            rw [hr] at hnot
            simpa [repsOf] using hnot
          simpa [toDouble] using guard64_nonpos q hq
      simp only [rewardStep64, hs, hrej, if_true, hacc]
      simp [hv]
  · have hv : ¬ isValidEntry w = true := by
      simp [isValidEntry, hk]
    simp only [rewardStep64, getSettings_of_unknown hk hin, hacc]
    simp [hv]

theorem foldl_rewardStep64_tokens (ws : List Workout)
    (hws : ∀ w ∈ ws, isInheritedKey w.type = false ∧
      (isValidEntry w = true → ∃ n : ℤ, 0 < n ∧ n ≤ 2 ^ 50 ∧ w.reps = .num n))
    (acc : Reward64) (a : ℤ) (hacc : acc.totalTokenAmount = .fin a) (ha : 0 ≤ a)
    (hb : a + specTokens ws < 2 ^ 53) :
    (ws.foldl rewardStep64 acc).totalTokenAmount = .fin ((a + specTokens ws : ℤ) : ℚ) := by
  induction ws generalizing acc a with
  | nil => simpa [specTokens] using hacc
  | cons w ws ih =>
    obtain ⟨hin, hint⟩ := hws w (List.mem_cons_self _ _)
    have hrest := fun v hv => hws v (List.mem_cons_of_mem w hv)
    rw [specTokens_cons] at hb
    have hnn := specTokens_nonneg ws
    have hc0 : 0 ≤ (if isValidEntry w then entryTokens w else 0) := by
      by_cases hv : isValidEntry w = true
      · rw [if_pos hv]
        exact entryTokens_nonneg_of_valid w hv
      · rw [if_neg hv]
    have hstep := rewardStep64_tokens acc w a hacc ha hin hint (by omega)
    rw [List.foldl_cons, ih hrest (rewardStep64 acc w) _ hstep (by omega) (by omega),
      specTokens_cons]
    congr 2
    ring

/-- The loop in double precision on a list none of whose kinds is read from
`Object.prototype`, whose valid entries have integer repetitions from 1 to
`2 ^ 50`, and whose exact token sum is below `2 ^ 53`: `totalTokenAmount` is
that sum. -/
theorem rewardLoop64_tokens (ws : List Workout)
    (hws : ∀ w ∈ ws, isInheritedKey w.type = false ∧
      (isValidEntry w = true → ∃ n : ℤ, 0 < n ∧ n ≤ 2 ^ 50 ∧ w.reps = .num n))
    (hb : specTokens ws < 2 ^ 53) :
    (rewardLoop64 ws).totalTokenAmount = .fin ((specTokens ws : ℤ) : ℚ) := by
  have h := foldl_rewardStep64_tokens ws hws rewardInit64 0 (by simp [rewardInit64])
    (le_refl _) (by simpa using hb)
  simpa [rewardLoop64] using h

/-- C1, refuted as stated. For the single entry of 3753163595537424 push-ups, a
catalog kind with a positive integer number of repetitions, the sum of the
claim is the floor of 4503796314644908.8, that is 4503796314644908, while the
loop in double precision leaves 4503796314644909 in `totalTokenAmount`: the
product with the double written `1.2` is rounded up to that integer before
the floor is taken. -/
theorem reward64_tokens_large_reps :
    ("pushups" ∈ catalogKinds ∧
        ∃ n : ℤ, 0 < n ∧ (JsVal.num 3753163595537424 : JsVal) = .num n) ∧
      ⌊repsOf (.num 3753163595537424) * tokenMultiplierOf "pushups"⌋ = 4503796314644908 ∧
      (rewardLoop64 [⟨"pushups", .num 3753163595537424⟩]).totalTokenAmount
        = .fin 4503796314644909 := by
  have htm : tokenMultiplierOf "pushups" = 6 / 5 := by
    simp [tokenMultiplierOf, List.lookup]
    norm_num
  refine ⟨⟨by decide, 3753163595537424, by norm_num, by norm_num⟩, ?_, ?_⟩
  · rw [htm]
    simp only [repsOf]
    norm_num
  · obtain ⟨nameEn, hs⟩ := getSettings_of_catalog (by decide : "pushups" ∈ catalogKinds)
    have hreps : toDouble (.num 3753163595537424) = .fin 3753163595537424 := by
      have := round64_int 3753163595537424 (by norm_num) (by norm_num)
      simpa [toDouble] using this
    have hm : toDouble (.num (tokenMultiplierOf "pushups")) =
        .fin (5404319552844595 / 4503599627370496) := by
      show round64 (tokenMultiplierOf "pushups") = _
      rw [htm]
      exact round64_six_fifths
    have hprod : round64 ((3753163595537424 : ℚ) * (5404319552844595 / 4503599627370496))
        = .fin 4503796314644909 := by
      rw [round64_pos _ 52 (le_refl _) (by norm_num) (by norm_num)]
      have h : roundHalfEven ((3753163595537424 : ℚ) *
          (5404319552844595 / 4503599627370496) * 2 ^ (52 - 52)) = 4503796314644909 := by
        unfold roundHalfEven
        norm_num
      rw [h]
      norm_num
    have hsum : round64 ((0 : ℚ) + ((⌊(4503796314644909 : ℚ)⌋ : ℤ) : ℚ))
        = .fin 4503796314644909 := by
      have := round64_int 4503796314644909 (by norm_num) (by norm_num)
      have hfl : ⌊(4503796314644909 : ℚ)⌋ = 4503796314644909 := by norm_num
      rw [hfl, zero_add]
      exact_mod_cast this
    have hguard : ¬ ((!truthy64 (toDouble (.num 3753163595537424)) ||
        le64 (toDouble (.num 3753163595537424)) (.fin 0)) = true) := by
      rw [hreps]
      simp [truthy64, le64]
    have hstep : (rewardStep64 rewardInit64 ⟨"pushups", .num 3753163595537424⟩).totalTokenAmount
        = add64 (.fin 0) (floor64 (mul64 (toDouble (.num 3753163595537424))
            (toDouble (.num (tokenMultiplierOf "pushups"))))) := by
      unfold rewardStep64
      simp only [hs]
      rw [if_neg hguard]
      rfl
    unfold rewardLoop64
    rw [List.foldl_cons, List.foldl_nil, hstep, hreps, hm]
    simp only [mul64]
    rw [hprod]
    simp only [floor64, add64]
    exact hsum

/-- C1, amended. For every workout list in which every entry has a kind of the
catalog `WORKOUT_SETTINGS` and an integer number of repetitions from 1 to
`2 ^ 50`, and for which the sum over the entries of the floor of repetitions
times multiplier (the multipliers being the exact rationals 1.0, 1.2, 1.5,
1.2 and 1.0) is below `2 ^ 53`, the loop in double precision leaves that sum
in `totalTokenAmount`. -/
theorem reward64_tokens_sum_of_floors (ws : List Workout)
    (h : ∀ w ∈ ws, w.type ∈ catalogKinds ∧ ∃ n : ℤ, 0 < n ∧ n ≤ 2 ^ 50 ∧ w.reps = .num n)
    (hb : (ws.map fun w => ⌊repsOf w.reps * tokenMultiplierOf w.type⌋).sum < 2 ^ 53) :
    (rewardLoop64 ws).totalTokenAmount =
      .fin (((ws.map fun w => ⌊repsOf w.reps * tokenMultiplierOf w.type⌋).sum : ℤ) : ℚ) := by
  have hall : ws.filter isValidEntry = ws := by
    rw [List.filter_eq_self]
    intro w hw
    obtain ⟨hk, n, hn, _, hr⟩ := h w hw
    have : (0 : ℚ) < n := by exact_mod_cast hn
    simp [isValidEntry, hk, hr, repsOf, this]
  have hspec : specTokens ws =
      (ws.map fun w => ⌊repsOf w.reps * tokenMultiplierOf w.type⌋).sum := by
    simp only [specTokens, hall]
    rfl
  have hws : ∀ w ∈ ws, isInheritedKey w.type = false ∧
      (isValidEntry w = true → ∃ n : ℤ, 0 < n ∧ n ≤ 2 ^ 50 ∧ w.reps = .num n) :=
    fun w hw => ⟨not_inherited_of_catalog (h w hw).1, fun _ => (h w hw).2⟩
  rw [← hspec] at hb ⊢
  exact rewardLoop64_tokens ws hws hb

/-- C1 amended, at the two examples of the specification: fifty squats give 75
tokens, twenty crunches followed by ten push-ups give 32. -/
theorem reward64_tokens_sum_of_floors_witness :
    (∀ w ∈ [(⟨"crunches", .num 20⟩ : Workout), ⟨"pushups", .num 10⟩],
        w.type ∈ catalogKinds ∧ ∃ n : ℤ, 0 < n ∧ n ≤ 2 ^ 50 ∧ w.reps = .num n) ∧
      (rewardLoop64 [⟨"squats", .num 50⟩]).totalTokenAmount = .fin 75 ∧
      (rewardLoop64 [⟨"crunches", .num 20⟩, ⟨"pushups", .num 10⟩]).totalTokenAmount
        = .fin 32 := by
  have h1 : ∀ w ∈ [(⟨"squats", .num 50⟩ : Workout)],
      w.type ∈ catalogKinds ∧ ∃ n : ℤ, 0 < n ∧ n ≤ 2 ^ 50 ∧ w.reps = .num n := by
    intro w hw
    simp only [List.mem_singleton] at hw
    subst hw
    exact ⟨by decide, 50, by norm_num, by norm_num, by norm_num⟩
  have h2 : ∀ w ∈ [(⟨"crunches", .num 20⟩ : Workout), ⟨"pushups", .num 10⟩],
      w.type ∈ catalogKinds ∧ ∃ n : ℤ, 0 < n ∧ n ≤ 2 ^ 50 ∧ w.reps = .num n := by
    intro w hw
    simp only [List.mem_cons, List.mem_singleton, List.not_mem_nil, or_false] at hw
    rcases hw with hw | hw <;> subst hw
    · exact ⟨by decide, 20, by norm_num, by norm_num, by norm_num⟩
    · exact ⟨by decide, 10, by norm_num, by norm_num, by norm_num⟩
  have e1 : ([(⟨"squats", .num 50⟩ : Workout)].map
      fun w => ⌊repsOf w.reps * tokenMultiplierOf w.type⌋).sum = 75 := by
    simp [repsOf, tokenMultiplierOf, List.lookup]
    norm_num
  have e2 : ([(⟨"crunches", .num 20⟩ : Workout), ⟨"pushups", .num 10⟩].map
      fun w => ⌊repsOf w.reps * tokenMultiplierOf w.type⌋).sum = 32 := by
    simp [repsOf, tokenMultiplierOf, List.lookup]
    norm_num
  refine ⟨h2, ?_, ?_⟩
  · rw [reward64_tokens_sum_of_floors _ h1 (by rw [e1]; norm_num), e1]
    norm_num
  · rw [reward64_tokens_sum_of_floors _ h2 (by rw [e2]; norm_num), e2]
    norm_num

/-- C13, refuted as stated. For three push-ups followed by three push-ups the
loop gives 3 + 3 = 6 tokens, in double precision as in exact arithmetic, while
the floor of the sum 3.6 + 3.6 is 7. -/
theorem reward_tokens_not_floor_of_sum :
    (rewardLoop64 [⟨"pushups", .num 3⟩, ⟨"pushups", .num 3⟩]).totalTokenAmount = .fin 6 ∧
      (rewardLoop [⟨"pushups", .num 3⟩, ⟨"pushups", .num 3⟩]).totalTokenAmount = .num 6 ∧
      floorOfSumTokens [⟨"pushups", .num 3⟩, ⟨"pushups", .num 3⟩] = 7 ∧
      (rewardLoop64 [⟨"pushups", .num 3⟩, ⟨"pushups", .num 3⟩]).totalTokenAmount ≠
        .fin (floorOfSumTokens [⟨"pushups", .num 3⟩, ⟨"pushups", .num 3⟩]) ∧
      (rewardLoop [⟨"pushups", .num 3⟩, ⟨"pushups", .num 3⟩]).totalTokenAmount ≠
        .num (floorOfSumTokens [⟨"pushups", .num 3⟩, ⟨"pushups", .num 3⟩]) := by
  have hws : ∀ w ∈ [(⟨"pushups", .num 3⟩ : Workout), ⟨"pushups", .num 3⟩],
      isInheritedKey w.type = false ∧
        (isValidEntry w = true → ∃ n : ℤ, 0 < n ∧ n ≤ 2 ^ 50 ∧ w.reps = .num n) := by
    intro w hw
    simp only [List.mem_cons, List.mem_singleton, List.not_mem_nil, or_false, or_self] at hw
    subst hw
    exact ⟨by decide, fun _ => ⟨3, by norm_num, by norm_num, by norm_num⟩⟩
  have hspec : specTokens [⟨"pushups", .num 3⟩, ⟨"pushups", .num 3⟩] = 6 := by
    simp [specTokens, entryTokens, isValidEntry, catalogKinds, repsOf, tokenMultiplierOf,
      List.lookup]
    norm_num
  have h0 : (rewardLoop64 [⟨"pushups", .num 3⟩, ⟨"pushups", .num 3⟩]).totalTokenAmount
      = .fin 6 := by
    rw [rewardLoop64_tokens _ hws (by rw [hspec]; norm_num), hspec]
    norm_num
  have h1 : (rewardLoop [⟨"pushups", .num 3⟩, ⟨"pushups", .num 3⟩]).totalTokenAmount
      = .num 6 := by
    simp [rewardLoop, rewardStep, rewardInit, getSettings, WORKOUT_SETTINGS, List.lookup,
      repsRejected, JsVal.truthy, JsVal.le, JsVal.toNumber, JsVal.add, JsVal.mul, JsVal.floor]
    norm_num
  have h2 : floorOfSumTokens [⟨"pushups", .num 3⟩, ⟨"pushups", .num 3⟩] = 7 := by
    simp [floorOfSumTokens, isValidEntry, catalogKinds, repsOf, tokenMultiplierOf, List.lookup]
    norm_num
  refine ⟨h0, h1, h2, ?_, ?_⟩
  · rw [h0, h2]
    intro h
    injection h with h
    norm_num at h
  · rw [h1, h2]
    intro h
    injection h with h
    norm_num at h

/-- C13, amended. For every workout list none of whose kinds is read from
`Object.prototype`, whose valid entries have an integer number of repetitions
from 1 to `2 ^ 50`, and for which the sum over the valid entries of the floor
of repetitions times multiplier is below `2 ^ 53`, the loop in double
precision leaves that sum in `totalTokenAmount`, one floor being applied to
each entry; the sum is at most the floor of the whole sum. -/
theorem reward64_tokens_floor_per_entry (ws : List Workout)
    (hws : ∀ w ∈ ws, isInheritedKey w.type = false ∧
      (isValidEntry w = true → ∃ n : ℤ, 0 < n ∧ n ≤ 2 ^ 50 ∧ w.reps = .num n))
    (hb : ((ws.filter isValidEntry).map
      fun w => ⌊repsOf w.reps * tokenMultiplierOf w.type⌋).sum < 2 ^ 53) :
    (rewardLoop64 ws).totalTokenAmount =
        .fin ((((ws.filter isValidEntry).map
          fun w => ⌊repsOf w.reps * tokenMultiplierOf w.type⌋).sum : ℤ) : ℚ) ∧
      ((ws.filter isValidEntry).map fun w => ⌊repsOf w.reps * tokenMultiplierOf w.type⌋).sum
        ≤ floorOfSumTokens ws := by
  constructor
  · exact rewardLoop64_tokens ws hws hb
  · have hs := sum_floor_le_floor_sum
      ((ws.filter isValidEntry).map fun w => repsOf w.reps * tokenMultiplierOf w.type)
    simpa [floorOfSumTokens, List.map_map, Function.comp] using hs

/-- C13 amended, at three push-ups, nine repetitions of an unknown kind, zero
squats and three more push-ups: 6 tokens, below the floor 7 of the sum. -/
theorem reward64_tokens_floor_per_entry_witness :
    (∀ w ∈ [(⟨"pushups", .num 3⟩ : Workout), ⟨"burpees", .num 9⟩, ⟨"squats", .num 0⟩,
          ⟨"pushups", .num 3⟩],
        isInheritedKey w.type = false ∧
          (isValidEntry w = true → ∃ n : ℤ, 0 < n ∧ n ≤ 2 ^ 50 ∧ w.reps = .num n)) ∧
      (rewardLoop64 [⟨"pushups", .num 3⟩, ⟨"burpees", .num 9⟩, ⟨"squats", .num 0⟩,
        ⟨"pushups", .num 3⟩]).totalTokenAmount = .fin 6 := by
  have h : ∀ w ∈ [(⟨"pushups", .num 3⟩ : Workout), ⟨"burpees", .num 9⟩, ⟨"squats", .num 0⟩,
        ⟨"pushups", .num 3⟩],
      isInheritedKey w.type = false ∧
        (isValidEntry w = true → ∃ n : ℤ, 0 < n ∧ n ≤ 2 ^ 50 ∧ w.reps = .num n) := by
    intro w hw
    simp only [List.mem_cons, List.mem_singleton, List.not_mem_nil, or_false] at hw
    rcases hw with hw | hw | hw | hw <;> subst hw
    · exact ⟨by decide, fun _ => ⟨3, by norm_num, by norm_num, by norm_num⟩⟩
    · exact ⟨by decide, fun hv => by simp [isValidEntry, catalogKinds] at hv⟩
    · exact ⟨by decide, fun hv => by simp [isValidEntry, repsOf] at hv⟩
    · exact ⟨by decide, fun _ => ⟨3, by norm_num, by norm_num, by norm_num⟩⟩
  have hsum : (([(⟨"pushups", .num 3⟩ : Workout), ⟨"burpees", .num 9⟩, ⟨"squats", .num 0⟩,
      ⟨"pushups", .num 3⟩].filter isValidEntry).map
        fun w => ⌊repsOf w.reps * tokenMultiplierOf w.type⌋).sum = 6 := by
    simp [isValidEntry, catalogKinds, repsOf, tokenMultiplierOf, List.lookup]
    norm_num
  refine ⟨h, ?_⟩
  rw [(reward64_tokens_floor_per_entry _ h (by rw [hsum]; norm_num)).1, hsum]
  norm_num

end SendTransaction
